import Mathlib

/-!
# Stream decoder and retry policy of the chat client (`src/scripts/api.js`)

A shallow embedding of `OpenAIAPI.parseStreamResponse`, `OpenAIAPI.withRetry`,
`OpenAIAPI.isRetryableError`, `OpenAIAPI.makeRequest`, `OpenAIAPI.updateRateLimitInfo`,
the API operations built on them (`getModels`, `createChatCompletion`,
`createChatCompletionStream`, `createEmbedding`, `transcribeAudio`, `generateSpeech`,
`moderateContent`) and of the consumer loop of `ChatGPTAdvanced.sendMessageStreaming`
(`src/scripts/main.js`); of the streaming guard of `ChatGPTAdvanced.sendMessage`
(namespace `ChatGPTAdvanced`); and of the helpers `truncateText`, `chunk`, `retry`,
`gregorianToPersian`, `shuffle`, `escapeHtml`, `unescapeHtml` and `getFileExtension` of
`src/scripts/utils.js` (namespace `Utils`).

Conventions.
* JavaScript text is a `List Char`.  `TextDecoder` only produces well-formed
  text, and every character the decoder inspects (`'\n'`, the white space
  removed by `trim`, the six characters of `data: `) is a single UTF-16 unit,
  so splitting, trimming, `startsWith` and `slice(6)` agree on code points and
  on UTF-16 units.
* Platform functions that are not part of the repository are parameters:
  `decode` stands for `TextDecoder.decode(value, {stream: true})` (it threads
  its own state), `parse` for `JSON.parse` (`none` when it throws).
* Numbers are integers; a delay is the value handed to `setTimeout`.
-/

namespace OpenAIAPI

/-! ## Text helpers of the platform -/

/-- The value of `s.split('\n')`: the pieces of `s` between line breaks; never empty. -/
def split : List Char → List (List Char)
  | [] => [[]]
  | c :: cs =>
    if c = '\n' then [] :: split cs
    else match split cs with
      | [] => [[c]]
      | l :: ls => (c :: l) :: ls

/-- White space and line terminators of ECMAScript, the characters `trim` removes. -/
def isWhiteSpace (c : Char) : Bool :=
  c.toNat = 0x09 || c.toNat = 0x0A || c.toNat = 0x0B || c.toNat = 0x0C || c.toNat = 0x0D ||
  c.toNat = 0x20 || c.toNat = 0xA0 || c.toNat = 0x1680 ||
  (0x2000 ≤ c.toNat && c.toNat ≤ 0x200A) ||
  c.toNat = 0x2028 || c.toNat = 0x2029 || c.toNat = 0x202F || c.toNat = 0x205F ||
  c.toNat = 0x3000 || c.toNat = 0xFEFF

/-- The value of `s.trim()`. -/
def trim (s : List Char) : List Char :=
  ((s.dropWhile isWhiteSpace).reverse.dropWhile isWhiteSpace).reverse

/-- The termination sentinel `data: [DONE]`. -/
def doneLine : List Char := "data: [DONE]".toList

/-- The event-data marker `data: `. -/
def dataMarker : List Char := "data: ".toList

/-! ## `parseStreamResponse` -/

/-- Body of the `for (const line of lines)` loop of `parseStreamResponse`:
the chunk yielded for one complete line, if any.  `parse` is `JSON.parse`. -/
def processLine {α : Type} (parse : List Char → Option α) (line : List Char) : Option α :=
  let trimmedLine := trim line
  if trimmedLine = [] ∨ trimmedLine = doneLine then none
  else if dataMarker.isPrefixOf trimmedLine then parse (trimmedLine.drop 6)
  else none

/-- The chunks yielded for a list of complete lines, in order. -/
def processLines {α : Type} (parse : List Char → Option α) (lines : List (List Char)) : List α :=
  lines.filterMap (processLine parse)

/-- The local state of `parseStreamResponse` between two reads: the state of the
`TextDecoder` and the `buffer` variable. -/
structure ReaderState (σ : Type) where
  decoder : σ
  buffer : List Char

/-- One iteration of the `while (true)` loop for a read that returned `value`:
`buffer += decoder.decode(value, {stream: true})`, `lines = buffer.split('\n')`,
`buffer = lines.pop()`, then the `for` loop over `lines`.  Returns the new state and
the chunks yielded during the iteration. -/
def readStep {σ α : Type} (decode : σ → List Nat → σ × List Char)
    (parse : List Char → Option α) (st : ReaderState σ) (value : List Nat) :
    ReaderState σ × List α :=
  let decoded := decode st.decoder value
  let buffer := st.buffer ++ decoded.2
  let lines := split buffer
  ({ decoder := decoded.1, buffer := lines.getLast?.getD [] }, processLines parse lines.dropLast)

/-- The loop of `parseStreamResponse` from a given state: `reads` are the values of the
successive `reader.read()` calls before the one that reports `done`.  Returns the state
at the end of the stream and all chunks yielded, in order. -/
def runReads {σ α : Type} (decode : σ → List Nat → σ × List Char)
    (parse : List Char → Option α) : ReaderState σ → List (List Nat) → ReaderState σ × List α
  | st, [] => (st, [])
  | st, value :: rest =>
    let r := readStep decode parse st value
    let r' := runReads decode parse r.1 rest
    (r'.1, r.2 ++ r'.2)

/-- The sequence of chunks `parseStreamResponse` yields when consumed to the end:
`buffer` starts empty, the decoder starts in state `s0`. -/
def parseStreamResponse {σ α : Type} (decode : σ → List Nat → σ × List Char)
    (parse : List Char → Option α) (s0 : σ) (reads : List (List Nat)) : List α :=
  (runReads decode parse { decoder := s0, buffer := [] } reads).2

/-- The text the decoder has produced over a sequence of reads. -/
def receivedText {σ : Type} (decode : σ → List Nat → σ × List Char) :
    σ → List (List Nat) → List Char
  | _, [] => []
  | s, value :: rest => (decode s value).2 ++ receivedText decode (decode s value).1 rest

/-- The streaming law of `TextDecoder`: decoding a read in two pieces gives the same
text and the same final state as decoding it at once. -/
def StreamingDecoder {σ : Type} (decode : σ → List Nat → σ × List Char) : Prop :=
  ∀ s a b, decode s (a ++ b) =
    ((decode (decode s a).1 b).1, (decode s a).2 ++ (decode (decode s a).1 b).2)

/-- A stateless decoder for one-byte encodings: every byte is one character. -/
def byteDecode (_ : Unit) (value : List Nat) : Unit × List Char :=
  ((), value.map Char.ofNat)

/-- The bytes of a text made of one-byte characters. -/
def bytesOf (s : String) : List Nat := s.toList.map Char.toNat

/-! ## Lines of a text, stated without `split` -/

/-- Scan of a text: the lines that are terminated by a line break, in order; `cur` is
the current line so far, reversed.  The text after the last line break is dropped. -/
def terminatedLinesAux : List Char → List Char → List (List Char)
  | _, [] => []
  | cur, c :: cs =>
    if c = '\n' then cur.reverse :: terminatedLinesAux [] cs
    else terminatedLinesAux (c :: cur) cs

/-- The lines of a text that are terminated by a line break. -/
def terminatedLines (s : List Char) : List (List Char) := terminatedLinesAux [] s

/-- The text after the last line break of `s` (all of `s` when it has none). -/
def afterLastLineBreak (s : List Char) : List Char :=
  (s.reverse.takeWhile (fun c => c ≠ '\n')).reverse

/-- A frame as the specification words it: a line that, after trimming, starts with
`data: `; its payload is the line with that 6-character prefix stripped. -/
def framePayload (line : List Char) : Option (List Char) :=
  if dataMarker.isPrefixOf (trim line) then some ((trim line).drop 6) else none

/-- The parses of the successfully parsed frames among the terminated lines of a text,
in the order of the lines. -/
def parsedFrames {α : Type} (parse : List Char → Option α) (text : List Char) : List α :=
  (terminatedLines text).filterMap (fun line => (framePayload line).bind parse)

/-- The complete lines of a buffer: all pieces of `split` but the last. -/
def completeLines (s : List Char) : List (List Char) := (split s).dropLast

/-- The piece `lines.pop()` keeps as the new buffer: the last piece of `split`. -/
def partialLine (s : List Char) : List Char := (split s).getLast?.getD []

/-! ## A model of `JSON.parse` -/

/-- Values produced by `JSON.parse`.  Strings and keys are lists of UTF-16 code units, as
in JavaScript; a number keeps its lexeme, which determines the double it denotes. -/
inductive JSON where
  | null : JSON
  | bool (b : Bool) : JSON
  | num (lexeme : List Char) : JSON
  | str (units : List Nat) : JSON
  | arr (elems : List JSON) : JSON
  | obj (members : List (List Nat × JSON)) : JSON

/-- The UTF-16 code units of a character. -/
def utf16 (c : Char) : List Nat :=
  if c.toNat < 0x10000 then [c.toNat]
  else [0xD800 + (c.toNat - 0x10000) / 0x400, 0xDC00 + (c.toNat - 0x10000) % 0x400]

/-- The UTF-16 code units of a text. -/
def utf16Text (s : List Char) : List Nat := s.flatMap utf16

/-- JSON white space: space, tab, line feed, carriage return. -/
def isJsonSpace (c : Char) : Bool := c = ' ' || c = '\t' || c = '\n' || c = '\r'

/-- The value of a hexadecimal digit. -/
def hexValue (c : Char) : Option Nat :=
  if '0' ≤ c ∧ c ≤ '9' then some (c.toNat - 48)
  else if 'a' ≤ c ∧ c ≤ 'f' then some (c.toNat - 87)
  else if 'A' ≤ c ∧ c ≤ 'F' then some (c.toNat - 55)
  else none

/-- The four hexadecimal digits of a `\u` escape. -/
def hex4 (a b c d : Char) : Option Nat :=
  (hexValue a).bind fun x => (hexValue b).bind fun y => (hexValue c).bind fun z =>
    (hexValue d).map fun w => ((x * 16 + y) * 16 + z) * 16 + w

/-- The rest of a JSON string after its opening quote: the code units read so far are in
`acc`, reversed.  Returns the string and the input after the closing quote. -/
def parseStringBody : Nat → List Char → List Nat → Option (List Nat × List Char)
  | 0, _, _ => none
  | _ + 1, [], _ => none
  | fuel + 1, c :: rest, acc =>
    if c = '"' then some (acc.reverse, rest)
    else if c = '\\' then
      match rest with
      | [] => none
      | e :: rest' =>
        if e = '"' then parseStringBody fuel rest' (34 :: acc)
        else if e = '\\' then parseStringBody fuel rest' (92 :: acc)
        else if e = '/' then parseStringBody fuel rest' (47 :: acc)
        else if e = 'b' then parseStringBody fuel rest' (8 :: acc)
        else if e = 'f' then parseStringBody fuel rest' (12 :: acc)
        else if e = 'n' then parseStringBody fuel rest' (10 :: acc)
        else if e = 'r' then parseStringBody fuel rest' (13 :: acc)
        else if e = 't' then parseStringBody fuel rest' (9 :: acc)
        else if e = 'u' then
          match rest' with
          | h1 :: h2 :: h3 :: h4 :: rest'' =>
            match hex4 h1 h2 h3 h4 with
            | some u => parseStringBody fuel rest'' (u :: acc)
            | none => none
          | _ => none
        else none
    else if c.toNat < 0x20 then none
    else parseStringBody fuel rest ((utf16 c).reverse ++ acc)

/-- Splits off the longest prefix of decimal digits. -/
def spanDigits (s : List Char) : List Char × List Char := s.span Char.isDigit

/-- A JSON number at the head of the input: its lexeme and the input after it. -/
def parseNumber (s : List Char) : Option (List Char × List Char) :=
  let (sign, s1) := match s with
    | '-' :: r => (['-'], r)
    | _ => ([], s)
  let (int, s2) := spanDigits s1
  if int = [] ∨ (int.head? = some '0' ∧ int.length ≠ 1) then none
  else
    let fracPart : Option (List Char × List Char) := match s2 with
      | '.' :: r =>
        let (fr, r') := spanDigits r
        if fr = [] then none else some ('.' :: fr, r')
      | _ => some ([], s2)
    match fracPart with
    | none => none
    | some (frac, s3) =>
      let expPart : Option (List Char × List Char) := match s3 with
        | e :: r =>
          if e = 'e' ∨ e = 'E' then
            let (sg, r1) := match r with
              | '+' :: q => (['+'], q)
              | '-' :: q => (['-'], q)
              | _ => ([], r)
            let (ds, r2) := spanDigits r1
            if ds = [] then none else some (e :: sg ++ ds, r2)
          else some ([], s3)
        | [] => some ([], s3)
      match expPart with
      | none => none
      | some (ex, s4) => some (sign ++ int ++ frac ++ ex, s4)

/-- Removes `p` from the head of `s`, if it is there. -/
def dropLiteral (p s : List Char) : Option (List Char) :=
  if p.isPrefixOf s then some (s.drop p.length) else none

mutual
/-- A JSON value at the head of the input (after white space), and the input after it. -/
def parseValue : Nat → List Char → Option (JSON × List Char)
  | 0, _ => none
  | fuel + 1, s =>
    match s.dropWhile isJsonSpace with
    | [] => none
    | c :: rest =>
      if c = '"' then
        (parseStringBody (rest.length + 1) rest []).map fun r => (JSON.str r.1, r.2)
      else if c = '[' then
        match rest.dropWhile isJsonSpace with
        | ']' :: r => some (JSON.arr [], r)
        | _ => parseElements fuel rest []
      else if c = '{' then
        match rest.dropWhile isJsonSpace with
        | '}' :: r => some (JSON.obj [], r)
        | _ => parseMembers fuel rest []
      else if c = 't' then (dropLiteral "rue".toList rest).map fun r => (JSON.bool true, r)
      else if c = 'f' then (dropLiteral "alse".toList rest).map fun r => (JSON.bool false, r)
      else if c = 'n' then (dropLiteral "ull".toList rest).map fun r => (JSON.null, r)
      else (parseNumber (c :: rest)).map fun r => (JSON.num r.1, r.2)
/-- The elements of a non-empty array, up to and including the closing bracket. -/
def parseElements : Nat → List Char → List JSON → Option (JSON × List Char)
  | 0, _, _ => none
  | fuel + 1, s, acc =>
    match parseValue fuel s with
    | none => none
    | some (v, r) =>
      match r.dropWhile isJsonSpace with
      | ',' :: r' => parseElements fuel r' (v :: acc)
      | ']' :: r' => some (JSON.arr (v :: acc).reverse, r')
      | _ => none
/-- The members of a non-empty object, up to and including the closing brace. -/
def parseMembers : Nat → List Char → List (List Nat × JSON) → Option (JSON × List Char)
  | 0, _, _ => none
  | fuel + 1, s, acc =>
    match s.dropWhile isJsonSpace with
    | '"' :: r0 =>
      match parseStringBody (r0.length + 1) r0 [] with
      | none => none
      | some (k, r1) =>
        match r1.dropWhile isJsonSpace with
        | ':' :: r2 =>
          match parseValue fuel r2 with
          | none => none
          | some (v, r3) =>
            match r3.dropWhile isJsonSpace with
            | ',' :: r4 => parseMembers fuel r4 ((k, v) :: acc)
            | '}' :: r4 => some (JSON.obj ((k, v) :: acc).reverse, r4)
            | _ => none
        | _ => none
    | _ => none
end

/-- The result of `JSON.parse(text)`; `none` when it throws a `SyntaxError`. -/
def jsonParse (text : List Char) : Option JSON :=
  match parseValue (text.length + 1) text with
  | none => none
  | some (v, rest) => if rest.dropWhile isJsonSpace = [] then some v else none

/-! ## The consumer loop of `sendMessageStreaming` (`src/scripts/main.js`) -/

/-- The value of `x.key` for an `x` that is neither `null` nor `undefined` and a key no
prototype defines (`choices`, `delta`, `content`); `none` is `undefined`.  `JSON.parse`
keeps the last of several members with one key. -/
def getField (key : List Nat) : JSON → Option JSON
  | JSON.obj members => members.reverse.lookup key
  | _ => none

/-- The value of `x[0]` for an `x` that is neither `null` nor `undefined`. -/
def getIndex0 : JSON → Option JSON
  | JSON.arr elems => elems.head?
  | JSON.str units => units.head?.map fun u => JSON.str [u]
  | JSON.obj members => members.reverse.lookup [48]
  | _ => none

/-- Optional chaining `x?.p`: `undefined` when `x` is `null` or `undefined`. -/
def optChain (access : JSON → Option JSON) : Option JSON → Option JSON
  | none => none
  | some JSON.null => none
  | some v => access v

/-- The value of `chunk.choices?.[0]?.delta?.content`; the outer `none` is the `TypeError`
raised by `chunk.choices` when `chunk` is `null`. -/
def deltaContent (chunk : JSON) : Option (Option JSON) :=
  match chunk with
  | JSON.null => none
  | _ =>
    some (optChain (getField (utf16Text "content".toList))
      (optChain (getField (utf16Text "delta".toList))
        (optChain getIndex0 (getField (utf16Text "choices".toList) chunk))))

/-- The truth value of a JSON value (`ToBoolean`); `truthyNumber` decides it for the
double a number lexeme denotes. -/
def isTruthy (truthyNumber : List Char → Bool) : JSON → Bool
  | JSON.null => false
  | JSON.bool b => b
  | JSON.num lexeme => truthyNumber lexeme
  | JSON.str units => !units.isEmpty
  | JSON.arr _ => true
  | JSON.obj _ => true

/-- The text appended by `fullContent += content`: the string itself, and the platform
conversion `toText` for any other value. -/
def contentText (toText : JSON → List Nat) : JSON → List Nat
  | JSON.str units => units
  | v => toText v

/-- The `for await (const chunk of stream)` loop of `sendMessageStreaming` for a stream
that is not cancelled: `content = chunk.choices?.[0]?.delta?.content || ''` and, when
`content` is truthy, `fullContent += content`.  Returns the final `fullContent`, or
`none` when a chunk raises. -/
def fullContent (truthyNumber : List Char → Bool) (toText : JSON → List Nat) :
    List JSON → List Nat → Option (List Nat)
  | [], acc => some acc
  | chunk :: rest, acc =>
    match deltaContent chunk with
    | none => none
    | some c =>
      let content : JSON := match c with
        | some v => if isTruthy truthyNumber v then v else JSON.str []
        | none => JSON.str []
      if isTruthy truthyNumber content then
        fullContent truthyNumber toText rest (acc ++ contentText toText content)
      else fullContent truthyNumber toText rest acc

/-- The scripted stream of the end-to-end check: two content frames and the sentinel. -/
def scriptAB : List Char :=
  ("data: \x7b\"choices\":[\x7b\"delta\":\x7b\"content\":\"A\"\x7d\x7d]\x7d\n\n" ++
   "data: \x7b\"choices\":[\x7b\"delta\":\x7b\"content\":\"B\"\x7d\x7d]\x7d\n\n" ++
   "data: [DONE]\n\n").toList

/-- The chunk `\x7b"choices":[\x7b"delta":\x7b"content":c\x7d\x7d]\x7d`. -/
def contentChunk (c : String) : JSON :=
  JSON.obj [(utf16Text "choices".toList,
    JSON.arr [JSON.obj [(utf16Text "delta".toList,
      JSON.obj [(utf16Text "content".toList, JSON.str (utf16Text c.toList))])]])]

/-- A text that ends at a line boundary: it is empty or ends with a line break, so what
follows it starts a new line. -/
def AtLineStart (pre : List Char) : Prop := pre = [] ∨ pre.getLast? = some '\n'

/-! ## `withRetry` and `isRetryableError` -/

/-- The value of a digit in the given radix (10 or 16), if the character is one. -/
def digitValue (radix : Nat) (c : Char) : Option Nat :=
  if '0' ≤ c ∧ c ≤ '9' then some (c.toNat - 48)
  else if radix = 16 ∧ 'a' ≤ c ∧ c ≤ 'f' then some (c.toNat - 87)
  else if radix = 16 ∧ 'A' ≤ c ∧ c ≤ 'F' then some (c.toNat - 55)
  else none

/-- The value of `parseInt(s)` (no radix argument); `none` is `NaN`.  Leading white space
is skipped, a sign and a `0x` prefix are read, then the longest run of digits. -/
def parseInt (s : List Char) : Option Int :=
  let s1 := s.dropWhile isWhiteSpace
  let signed : Bool × List Char := match s1 with
    | c :: r => if c = '-' then (true, r) else if c = '+' then (false, r) else (false, s1)
    | [] => (false, s1)
  let based : Nat × List Char := match signed.2 with
    | z :: x :: r => if z = '0' ∧ (x = 'x' ∨ x = 'X') then (16, r) else (10, signed.2)
    | _ => (10, signed.2)
  let digits := based.2.takeWhile fun c => (digitValue based.1 c).isSome
  if digits = [] then none
  else
    let n : Nat := digits.foldl (fun acc c => acc * based.1 + (digitValue based.1 c).getD 0) 0
    some (if signed.1 then -(n : Int) else (n : Int))

/-- A `Response` as far as the transport client inspects it.  Header names are kept in
lower case, as the `Headers` object keeps them. -/
structure Response where
  status : Nat
  statusText : List Char
  headers : List (List Char × List Char)
  body : List Char
deriving DecidableEq

/-- The value of `response.headers.get(name)`; `none` is `null`. -/
def Response.header (r : Response) (name : List Char) : Option (List Char) :=
  r.headers.lookup (name.map Char.toLower)

/-- An error value as far as the transport client inspects it; `status` is `none` when
the property is `undefined`. -/
structure JsError where
  name : List Char
  status : Option Nat
  message : List Char
deriving DecidableEq

/-- The outcome of one `await fn()`: the promise resolves with a response or rejects. -/
inductive Outcome where
  | resolve (result : Response) : Outcome
  | reject (error : JsError) : Outcome
deriving DecidableEq

/-- Observable steps of `withRetry`: the call `fn()` made by the attempt with the given
index (from 0), and `setTimeout(resolve, delay)` awaited; a `none` delay is `NaN`. -/
inductive Event where
  | call (attempt : Nat) : Event
  | sleep (delay : Option Int) : Event
deriving DecidableEq

/-- How `withRetry` ends: `return result`, or `throw lastError` (`none` is `undefined`). -/
inductive Completion where
  | returned (result : Response) : Completion
  | thrown (lastError : Option JsError) : Completion
deriving DecidableEq

/-- A run of `withRetry`: how it ends, and its calls and waits in order. -/
structure RetryRun where
  completion : Completion
  trace : List Event
deriving DecidableEq

/-- Puts earlier events in front of the trace of the rest of a run. -/
def RetryRun.after (events : List Event) (run : RetryRun) : RetryRun :=
  { completion := run.completion, trace := events ++ run.trace }

/-- Embedding of `isRetryableError`: `error.name === 'TypeError' ||
(error.status >= 500 && error.status < 600) || error.status === 429`. -/
def isRetryableError (error : JsError) : Bool :=
  error.name = "TypeError".toList ||
  (match error.status with
    | some st => decide (500 ≤ st) && decide (st < 600)
    | none => false) ||
  error.status = some 429

/-- The delay computed in the rate-limit branch:
`retryAfter ? parseInt(retryAfter) * 1000 : baseDelay * Math.pow(2, attempt)`. -/
def rateLimitDelay (result : Response) (baseDelay attempt : Nat) : Option Int :=
  match result.header "Retry-After".toList with
  | some retryAfter =>
    if retryAfter ≠ [] then (parseInt retryAfter).map fun n => n * 1000
    else some ((baseDelay : Int) * 2 ^ attempt)
  | none => some ((baseDelay : Int) * 2 ^ attempt)

/-- The `for (let attempt = 0; attempt <= maxRetries; attempt++)` loop of `withRetry`,
entered with the given `attempt` and `lastError`.  `fn k` is the outcome of the call made
by attempt `k`.  `fuel` bounds the iterations left; the loop starts with
`maxRetries + 1`, which the loop condition never lets it exceed. -/
def withRetryLoop (fn : Nat → Outcome) (maxRetries baseDelay : Nat) :
    Nat → Nat → Option JsError → RetryRun
  | 0, _, lastError => { completion := Completion.thrown lastError, trace := [] }
  | fuel + 1, attempt, lastError =>
    if attempt ≤ maxRetries then
      match fn attempt with
      | Outcome.resolve result =>
        if result.status = 429 then
          if attempt < maxRetries then
            RetryRun.after
              [Event.call attempt, Event.sleep (rateLimitDelay result baseDelay attempt)]
              (withRetryLoop fn maxRetries baseDelay fuel (attempt + 1) lastError)
          else { completion := Completion.returned result, trace := [Event.call attempt] }
        else { completion := Completion.returned result, trace := [Event.call attempt] }
      | Outcome.reject error =>
        if attempt < maxRetries ∧ isRetryableError error = true then
          RetryRun.after
            [Event.call attempt, Event.sleep (some ((baseDelay : Int) * 2 ^ attempt))]
            (withRetryLoop fn maxRetries baseDelay fuel (attempt + 1) (some error))
        else { completion := Completion.thrown (some error), trace := [Event.call attempt] }
    else { completion := Completion.thrown lastError, trace := [] }

/-- Embedding of `withRetry(fn, maxRetries, baseDelay)`. -/
def withRetry (fn : Nat → Outcome) (maxRetries baseDelay : Nat) : RetryRun :=
  withRetryLoop fn maxRetries baseDelay (maxRetries + 1) 0 none

/-- The number of physical attempts (calls of `fn`) in a trace. -/
def attempts (trace : List Event) : Nat :=
  trace.countP fun e => match e with
    | Event.call _ => true
    | Event.sleep _ => false

/-- The wait performed right after the call of attempt `i` and before the next call, if
there is one: the delay of the `sleep` event that follows `call i`. -/
def waitAfter : List Event → Nat → Option (Option Int)
  | [], _ => none
  | e :: rest, i =>
    if e = Event.call i then
      match rest with
      | Event.sleep delay :: _ => some delay
      | _ => none
    else waitAfter rest i

/-- A response with the given status, headers and no body. -/
def responseWith (status : Nat) (headers : List (List Char × List Char)) : Response :=
  { status := status, statusText := [], headers := headers, body := [] }

/-- A request function whose attempts have the listed outcomes, in order, and reject with
a network `TypeError` once the list is used up. -/
def scripted (outcomes : List Outcome) (k : Nat) : Outcome :=
  (outcomes.get? k).getD
    (Outcome.reject { name := "TypeError".toList, status := none, message := [] })

/-- The delay `withRetry` computes when it retries after attempt `i`. -/
def retryDelay (fn : Nat → Outcome) (baseDelay i : Nat) : Option Int :=
  match fn i with
  | Outcome.resolve result => rateLimitDelay result baseDelay i
  | Outcome.reject _ => some ((baseDelay : Int) * 2 ^ i)

/-- The loop retries after attempt `i`: attempts remain and the attempt gave a 429
response or a retryable error. -/
def Retries (fn : Nat → Outcome) (maxRetries i : Nat) : Prop :=
  i < maxRetries ∧
    match fn i with
    | Outcome.resolve result => result.status = 429
    | Outcome.reject error => isRetryableError error = true

/-- How `withRetry` ends right after an attempt it does not retry: `return result` for a
response, `throw lastError` with the error just caught for a rejection. -/
def completionOf : Outcome → Completion
  | Outcome.resolve result => Completion.returned result
  | Outcome.reject error => Completion.thrown (some error)

/-! ## Rate-limit snapshot -/

/-- The value of `headers.get(name)` on a `Headers` object; `none` is `null`. -/
def headersGet (headers : List (List Char × List Char)) (name : List Char) :
    Option (List Char) :=
  headers.lookup (name.map Char.toLower)

/-- The Number values `parseInt(text) || 0` can take: an integer held exactly by a double,
or an infinity.  `NaN` and both zeros are replaced by `0` before the value is stored. -/
inductive JsNumber where
  | finite (value : Int) : JsNumber
  | infinity (negative : Bool) : JsNumber
deriving DecidableEq

instance instOfNatJsNumber (n : Nat) : OfNat JsNumber n := ⟨JsNumber.finite (n : Int)⟩

/-- The least `e` at or above the given one with `m < 2 ^ (53 + e)`: the number of low bits
of `m` that do not fit a 53-bit significand. -/
def excessBits : Nat → Nat → Nat → Nat
  | 0, _, e => e
  | fuel + 1, m, e => if m < 2 ^ (53 + e) then e else excessBits fuel m (e + 1)

/-- The magnitude of the double nearest to the natural number `m` (round to nearest, ties
to even).  Up to `2 ^ 53` every integer is a double; above, the low `e` bits are rounded
away. -/
def roundToDouble (m : Nat) : Nat :=
  if m ≤ 2 ^ 53 then m
  else
    let e := excessBits m m 1
    let q := m / 2 ^ e
    let r := m % 2 ^ e
    let half := 2 ^ (e - 1)
    (if half < r ∨ (r = half ∧ q % 2 = 1) then q + 1 else q) * 2 ^ e

/-- The Number that holds the integer `n` read by `parseInt`: the nearest double, an
infinity when that is `2 ^ 1024` or more in magnitude.  (For a decimal text of more than
20 significant digits ECMAScript lets an implementation approximate the later digits;
this is the correctly rounded value.) -/
def toNumber (n : Int) : JsNumber :=
  let m := roundToDouble n.natAbs
  if m < (2 ^ 256) ^ 4 then JsNumber.finite (if n < 0 then -(m : Int) else (m : Int))
  else JsNumber.infinity (decide (n < 0))

/-- The `rateLimitInfo` snapshot; `resetTime` is `none` when it is `null`. -/
structure RateLimitInfo where
  requests : JsNumber
  tokens : JsNumber
  resetTime : Option (List Char)
deriving DecidableEq

/-- The snapshot set by the constructor of `OpenAIAPI`. -/
def initialRateLimitInfo : RateLimitInfo := { requests := 0, tokens := 0, resetTime := none }

/-- The value of `parseInt(headers.get(name)) || 0`.  A missing header is `null`, which
`parseInt` reads as the text `null`; `NaN` and `0` both give `0`; any other integer read
is stored as a Number, the double nearest to it. -/
def remainingCount (headers : List (List Char × List Char)) (name : List Char) :
    JsNumber :=
  match parseInt ((headersGet headers name).getD "null".toList) with
  | some n => toNumber n
  | none => 0

/-- Embedding of `updateRateLimitInfo(headers)`: the snapshot assigned to
`this.rateLimitInfo`. -/
def updateRateLimitInfo (headers : List (List Char × List Char)) : RateLimitInfo :=
  { requests := remainingCount headers "x-ratelimit-remaining-requests".toList
    tokens := remainingCount headers "x-ratelimit-remaining-tokens".toList
    resetTime :=
      match headersGet headers "x-ratelimit-reset-requests".toList with
      | some v => if v ≠ [] then some v else none
      | none => none }

/-- Embedding of `getRateLimitInfo()`: a copy of the snapshot. -/
def getRateLimitInfo (rateLimitInfo : RateLimitInfo) : RateLimitInfo :=
  { requests := rateLimitInfo.requests, tokens := rateLimitInfo.tokens,
    resetTime := rateLimitInfo.resetTime }

/-! ## API operations -/

/-- An `APIError`: `message` as set by the `Error` constructor, `code` as passed, and
`statusCode` (`none` when the third argument is omitted). -/
structure APIError where
  message : List Nat
  code : JSON
  statusCode : Option Nat

/-- A value thrown by an API operation: an instance of `APIError`, another error object,
or `undefined`. -/
inductive Thrown where
  | api (error : APIError) : Thrown
  | other (error : JsError) : Thrown
  | undefined : Thrown

/-- The outcome of an API operation: its result or the value it throws, the rate-limit
snapshot it leaves, and the calls and waits it made. -/
structure ApiRun (β : Type) where
  result : Except Thrown β
  rateLimitInfo : RateLimitInfo
  trace : List Event

/-- The value of `response.ok`: the status is in the range 200 to 299. -/
def Response.ok (r : Response) : Bool := decide (200 ≤ r.status) && decide (r.status ≤ 299)

/-- The value of `a || b` for a possibly `undefined` left operand. -/
def orElse (truthyNumber : List Char → Bool) (a : Option JSON) (b : JSON) : JSON :=
  match a with
  | some v => if isTruthy truthyNumber v then v else b
  | none => b

/-- The value of `errorData?.error?.<key>` for `key` one of `message`, `code`. -/
def errorField (errorData : JSON) (key : String) : Option JSON :=
  optChain (getField (utf16Text key.toList))
    (optChain (getField (utf16Text "error".toList)) (some errorData))

/-- The text `HTTP <status>: <statusText>` of the template literal. -/
def statusLine (response : Response) : List Nat :=
  utf16Text ("HTTP ".toList ++ Nat.toDigits 10 response.status ++ ": ".toList
    ++ response.statusText)

/-- The `else` branch shared by the API operations: `errorData` is the parsed body, or
`null` when `response.json()` rejects, and the error thrown is
`new APIError(errorData?.error?.message || statusLine, errorData?.error?.code || 'API_ERROR',
response.status)`. -/
def errorFromResponse (parse : List Char → Option JSON) (truthyNumber : List Char → Bool)
    (toText : JSON → List Nat) (response : Response) : APIError :=
  let errorData : JSON := (parse response.body).getD JSON.null
  { message := contentText toText
      (orElse truthyNumber (errorField errorData "message") (JSON.str (statusLine response)))
    code := orElse truthyNumber (errorField errorData "code")
      (JSON.str (utf16Text "API_ERROR".toList))
    statusCode := some response.status }

/-- The error `new APIError('Network error occurred', 'NETWORK_ERROR')`. -/
def networkError : APIError :=
  { message := utf16Text "Network error occurred".toList
    code := JSON.str (utf16Text "NETWORK_ERROR".toList)
    statusCode := none }

/-- Embedding of `makeRequest`: `withRetry(() => fetch(url, requestOptions), 3)`, with the
default `baseDelay = 1000`; `fetch k` is the outcome of the `k`-th call of `fetch`. -/
def makeRequest (fetch : Nat → Outcome) : RetryRun := withRetry fetch 3 1000

/-- Embedding of `createChatCompletion`, from the snapshot `rateLimitInfo`: the request,
then on an ok response `response.json()`, `updateRateLimitInfo`, `return data`, otherwise
the shared error branch; the `catch` rethrows an `APIError` and turns anything else into
the network error. -/
def createChatCompletion (parse : List Char → Option JSON) (truthyNumber : List Char → Bool)
    (toText : JSON → List Nat) (rateLimitInfo : RateLimitInfo) (fetch : Nat → Outcome) :
    ApiRun JSON :=
  let run := makeRequest fetch
  match run.completion with
  | Completion.returned response =>
    if response.ok then
      match parse response.body with
      | some data =>
        { result := Except.ok data, rateLimitInfo := updateRateLimitInfo response.headers,
          trace := run.trace }
      | none =>
        { result := Except.error (Thrown.api networkError), rateLimitInfo := rateLimitInfo,
          trace := run.trace }
    else
      { result := Except.error
          (Thrown.api (errorFromResponse parse truthyNumber toText response)),
        rateLimitInfo := rateLimitInfo, trace := run.trace }
  | Completion.thrown _ =>
    { result := Except.error (Thrown.api networkError), rateLimitInfo := rateLimitInfo,
      trace := run.trace }

/-- Embedding of `createEmbedding`: the same body as `createChatCompletion`. -/
def createEmbedding (parse : List Char → Option JSON) (truthyNumber : List Char → Bool)
    (toText : JSON → List Nat) (rateLimitInfo : RateLimitInfo) (fetch : Nat → Outcome) :
    ApiRun JSON :=
  createChatCompletion parse truthyNumber toText rateLimitInfo fetch

/-- Embedding of `transcribeAudio`: the same body as `createChatCompletion`. -/
def transcribeAudio (parse : List Char → Option JSON) (truthyNumber : List Char → Bool)
    (toText : JSON → List Nat) (rateLimitInfo : RateLimitInfo) (fetch : Nat → Outcome) :
    ApiRun JSON :=
  createChatCompletion parse truthyNumber toText rateLimitInfo fetch

/-- Embedding of `moderateContent`: the same body as `createChatCompletion`. -/
def moderateContent (parse : List Char → Option JSON) (truthyNumber : List Char → Bool)
    (toText : JSON → List Nat) (rateLimitInfo : RateLimitInfo) (fetch : Nat → Outcome) :
    ApiRun JSON :=
  createChatCompletion parse truthyNumber toText rateLimitInfo fetch

/-- Embedding of `generateSpeech`: on an ok response `updateRateLimitInfo`, then
`return await response.blob()` (the body); otherwise as `createChatCompletion`. -/
def generateSpeech (parse : List Char → Option JSON) (truthyNumber : List Char → Bool)
    (toText : JSON → List Nat) (rateLimitInfo : RateLimitInfo) (fetch : Nat → Outcome) :
    ApiRun (List Char) :=
  let run := makeRequest fetch
  match run.completion with
  | Completion.returned response =>
    if response.ok then
      { result := Except.ok response.body,
        rateLimitInfo := updateRateLimitInfo response.headers, trace := run.trace }
    else
      { result := Except.error
          (Thrown.api (errorFromResponse parse truthyNumber toText response)),
        rateLimitInfo := rateLimitInfo, trace := run.trace }
  | Completion.thrown _ =>
    { result := Except.error (Thrown.api networkError), rateLimitInfo := rateLimitInfo,
      trace := run.trace }

/-- Embedding of `createChatCompletionStream`: on an ok response `updateRateLimitInfo`,
then `return this.parseStreamResponse(response)` (the result is the response the decoder
will read); the `catch` rethrows an `APIError` and an error named `AbortError`, and turns
anything else into the network error (reading `.name` of `undefined` is a `TypeError`). -/
def createChatCompletionStream (parse : List Char → Option JSON)
    (truthyNumber : List Char → Bool) (toText : JSON → List Nat)
    (rateLimitInfo : RateLimitInfo) (fetch : Nat → Outcome) : ApiRun Response :=
  let run := makeRequest fetch
  match run.completion with
  | Completion.returned response =>
    if response.ok then
      { result := Except.ok response,
        rateLimitInfo := updateRateLimitInfo response.headers, trace := run.trace }
    else
      { result := Except.error
          (Thrown.api (errorFromResponse parse truthyNumber toText response)),
        rateLimitInfo := rateLimitInfo, trace := run.trace }
  | Completion.thrown (some error) =>
    if error.name = "AbortError".toList then
      { result := Except.error (Thrown.other error), rateLimitInfo := rateLimitInfo,
        trace := run.trace }
    else
      { result := Except.error (Thrown.api networkError), rateLimitInfo := rateLimitInfo,
        trace := run.trace }
  | Completion.thrown none =>
    { result := Except.error
        (Thrown.other { name := "TypeError".toList, status := none, message := [] }),
      rateLimitInfo := rateLimitInfo, trace := run.trace }

/-- Embedding of `getModels`: on an ok response `return data.data` (a `TypeError` when
`data` is `null`, `undefined` when there is no such member), otherwise
`new APIError('Failed to fetch models', 'MODELS_FETCH_ERROR')`; the `catch` logs and
rethrows whatever was thrown.  The snapshot is not touched. -/
def getModels (parse : List Char → Option JSON) (rateLimitInfo : RateLimitInfo)
    (fetch : Nat → Outcome) : ApiRun (Option JSON) :=
  let run := makeRequest fetch
  match run.completion with
  | Completion.returned response =>
    if response.ok then
      match parse response.body with
      | some JSON.null =>
        { result := Except.error
            (Thrown.other { name := "TypeError".toList, status := none, message := [] }),
          rateLimitInfo := rateLimitInfo, trace := run.trace }
      | some data =>
        { result := Except.ok (getField (utf16Text "data".toList) data),
          rateLimitInfo := rateLimitInfo, trace := run.trace }
      | none =>
        { result := Except.error
            (Thrown.other { name := "SyntaxError".toList, status := none, message := [] }),
          rateLimitInfo := rateLimitInfo, trace := run.trace }
    else
      { result := Except.error (Thrown.api
          { message := utf16Text "Failed to fetch models".toList
            code := JSON.str (utf16Text "MODELS_FETCH_ERROR".toList)
            statusCode := none }),
        rateLimitInfo := rateLimitInfo, trace := run.trace }
  | Completion.thrown (some error) =>
    { result := Except.error (Thrown.other error), rateLimitInfo := rateLimitInfo,
      trace := run.trace }
  | Completion.thrown none =>
    { result := Except.error Thrown.undefined, rateLimitInfo := rateLimitInfo,
      trace := run.trace }

/-- The 401 response of the end-to-end check. -/
def invalidKeyResponse : Response :=
  { status := 401, statusText := "Unauthorized".toList, headers := [],
    body := ("\x7b\"error\":\x7b\"message\":\"invalid key\"," ++
      "\"code\":\"invalid_api_key\"\x7d\x7d").toList }

/-- An ok response of the models endpoint that carries rate-limit headers. -/
def modelsResponse : Response :=
  { status := 200, statusText := "OK".toList,
    headers := [("x-ratelimit-remaining-requests".toList, "5".toList),
      ("x-ratelimit-remaining-tokens".toList, "900".toList)],
    body := "\x7b\"data\":[]\x7d".toList }

/-! ## `parseStreamResponse` as a generator driven by a consumer -/

/-- Observable steps of a started `parseStreamResponse` sequence: `response.body.getReader()`,
a call of `reader.read()`, a `yield`, and `reader.releaseLock()`. -/
inductive StreamEvent (α : Type) where
  | getReader : StreamEvent α
  | read : StreamEvent α
  | yielded (chunk : α) : StreamEvent α
  | releaseLock : StreamEvent α

/-- How the underlying stream ends after its last value: the next `reader.read()` reports
`done`, or rejects (a read error; `AbortError` when the request was aborted). -/
inductive StreamEnding where
  | done : StreamEnding
  | rejects (error : JsError) : StreamEnding

/-- How the sequence is left: the loop ended on `done`, the consumer left at a `yield`
(`break`, which calls `return()` on the generator), or a read threw. -/
inductive StreamExit where
  | completed : StreamExit
  | consumerLeft : StreamExit
  | threw (error : JsError) : StreamExit
deriving DecidableEq

/-- The steps of a part of the sequence and the way it is left. -/
structure StreamRun (α : Type) where
  trace : List (StreamEvent α)
  exit : StreamExit

/-- Puts earlier steps in front of a run. -/
def StreamRun.after {α : Type} (events : List (StreamEvent α)) (run : StreamRun α) :
    StreamRun α :=
  { trace := events ++ run.trace, exit := run.exit }

/-- The `for (const line of lines)` loop with its consumer: each parsed line is yielded
to the `for await` loop of `sendMessageStreaming`, which leaves when `aborted k` holds,
the value of `signal.aborted` as chunk `k` arrives; `next` is the rest of the `while`
loop, run when the lines are used up. -/
def yieldLines {α : Type} (parse : List Char → Option α) (aborted : Nat → Bool) :
    List (List Char) → Nat → (Nat → StreamRun α) → StreamRun α
  | [], k, next => next k
  | line :: rest, k, next =>
    match processLine parse line with
    | none => yieldLines parse aborted rest k next
    | some chunk =>
      if aborted k then { trace := [StreamEvent.yielded chunk], exit := StreamExit.consumerLeft }
      else StreamRun.after [StreamEvent.yielded chunk]
        (yieldLines parse aborted rest (k + 1) next)

/-- The `while (true)` loop inside the `try` block: `reads` are the values the stream
still delivers, `ending` what the read after them reports, `k` the number of chunks
yielded so far. -/
def readLoop {σ α : Type} (decode : σ → List Nat → σ × List Char)
    (parse : List Char → Option α) (aborted : Nat → Bool) (ending : StreamEnding) :
    ReaderState σ → List (List Nat) → Nat → StreamRun α
  | _, [], _ =>
    match ending with
    | StreamEnding.done => { trace := [StreamEvent.read], exit := StreamExit.completed }
    | StreamEnding.rejects error =>
      { trace := [StreamEvent.read], exit := StreamExit.threw error }
  | st, value :: rest, k =>
    StreamRun.after [StreamEvent.read]
      (yieldLines parse aborted (split (st.buffer ++ (decode st.decoder value).2)).dropLast k
        fun k' => readLoop decode parse aborted ending (readStep decode parse st value).1 rest k')

/-- A started `parseStreamResponse` sequence: `getReader()`, the `try` block, and the
`finally` block `reader.releaseLock()`, which runs however the `try` block is left. -/
def parseStreamRun {σ α : Type} (decode : σ → List Nat → σ × List Char)
    (parse : List Char → Option α) (aborted : Nat → Bool) (ending : StreamEnding)
    (s0 : σ) (reads : List (List Nat)) : StreamRun α :=
  { trace := StreamEvent.getReader ::
      (readLoop decode parse aborted ending { decoder := s0, buffer := [] } reads 0).trace
        ++ [StreamEvent.releaseLock]
    exit := (readLoop decode parse aborted ending { decoder := s0, buffer := [] } reads 0).exit }

/-- Whether a step is `reader.releaseLock()`. -/
def StreamEvent.isRelease {α : Type} : StreamEvent α → Bool
  | StreamEvent.releaseLock => true
  | _ => false

/-- Whether a step is a call of `reader.read()`. -/
def StreamEvent.isRead {α : Type} : StreamEvent α → Bool
  | StreamEvent.read => true
  | _ => false

/-- The chunks yielded in a trace, in order. -/
def yieldedChunks {α : Type} : List (StreamEvent α) → List α
  | [] => []
  | StreamEvent.yielded chunk :: rest => chunk :: yieldedChunks rest
  | _ :: rest => yieldedChunks rest

/-- The steps that follow the chunk at whose arrival the consumer loop first sees
`signal.aborted`; `k` is the index of the next chunk.  `none` when it never does. -/
def stepsAfterCancel {α : Type} (aborted : Nat → Bool) :
    List (StreamEvent α) → Nat → Option (List (StreamEvent α))
  | [], _ => none
  | StreamEvent.yielded _ :: rest, k =>
    if aborted k then some rest else stepsAfterCancel aborted rest (k + 1)
  | _ :: rest, k => stepsAfterCancel aborted rest k

/-! ## The request headers built by `makeRequest` -/

/-- The value of `obj[key]` on a plain object given by its properties in order; `none` is
`undefined`. -/
def objectGet (obj : List (List Char × List Char)) (key : List Char) : Option (List Char) :=
  obj.lookup key

/-- The assignment `obj[key] = value`: an existing property keeps its place, a new one
is added last. -/
def objectSet : List (List Char × List Char) → List Char → List Char →
    List (List Char × List Char)
  | [], key, value => [(key, value)]
  | kv :: rest, key, value =>
    if kv.1 = key then (key, value) :: rest else kv :: objectSet rest key value

/-- The object `\x7b...target, ...source\x7d`: the properties of `source` are assigned
in order on a copy of `target`. -/
def objectSpread (target source : List (List Char × List Char)) :
    List (List Char × List Char) :=
  source.foldl (fun acc kv => objectSet acc kv.1 kv.2) target

/-- The effect of `delete obj[key]`. -/
def objectDelete (obj : List (List Char × List Char)) (key : List Char) :
    List (List Char × List Char) :=
  obj.filter fun kv => kv.1 != key

/-- Embedding of `getHeaders()` for the configured `apiKey`. -/
def getHeaders (apiKey : List Char) : List (List Char × List Char) :=
  [("Content-Type".toList, "application/json".toList),
   ("Authorization".toList, "Bearer ".toList ++ apiKey),
   ("User-Agent".toList, "ChatGPT-Persian/1.0".toList)]

/-- The `headers` object that `makeRequest` hands to `fetch`:
`\x7b...this.getHeaders(), ...options.headers\x7d`, with `Content-Type` deleted when
`options.body instanceof FormData`.  `optionsHeaders` is `none` when `options.headers` is
`undefined`. -/
def makeRequestHeaders (apiKey : List Char)
    (optionsHeaders : Option (List (List Char × List Char))) (bodyIsFormData : Bool) :
    List (List Char × List Char) :=
  let headers := objectSpread (getHeaders apiKey) (optionsHeaders.getD [])
  if bodyIsFormData then objectDelete headers "Content-Type".toList else headers

end OpenAIAPI

namespace ChatGPTAdvanced

/-! ## The orchestrator: `sendMessage` and `sendMessageStreaming` (`src/scripts/main.js`)

JavaScript runs each piece of code between two suspension points to its end before any
other handler runs, so the orchestrator is a state machine whose steps are those pieces:
the part of `sendMessage` up to its first `await` (which includes the start of
`sendMessageStreaming`), and the `finally` block through which `sendMessageStreaming`
leaves.  The rendering and persistence collaborators are taken not to throw. -/

/-- The part of the orchestrator state the streaming guard depends on. -/
structure State where
  isStreaming : Bool
  activeStreams : Nat
  streamCalls : Nat
  messages : Nat
deriving DecidableEq

/-- The state set by the constructor: no stream, nothing sent. -/
def initial : State :=
  { isStreaming := false, activeStreams := 0, streamCalls := 0, messages := 0 }

/-- The start of `sendMessageStreaming`, up to and including the call of
`createChatCompletionStream` at which it suspends: `this.isStreaming = true`, the
assistant placeholder is pushed to the chat, the streaming call is made. -/
def sendMessageStreamingStart (s : State) : State :=
  { isStreaming := true, activeStreams := s.activeStreams + 1,
    streamCalls := s.streamCalls + 1, messages := s.messages + 1 }

/-- The `finally` block of `sendMessageStreaming`, through which it leaves on completion,
on cancellation and on error: `this.isStreaming = false`. -/
def sendMessageStreamingExit (s : State) : State :=
  { isStreaming := false, activeStreams := s.activeStreams - 1,
    streamCalls := s.streamCalls, messages := s.messages }

/-- Embedding of `sendMessage` up to its first suspension.  `hasInput` is
`content || this.uploadedFiles.length !== 0`, `hasApiKey` is `this.config.apiKey`,
`hasChat` is whether `getCurrentChat()` gives a chat, `stream` is `this.config.stream`. -/
def sendMessage (s : State) (hasInput hasApiKey hasChat stream : Bool) : State :=
  if !hasInput then s
  else if s.isStreaming then s
  else if !hasApiKey then s
  else if !hasChat then s
  else
    let pushed : State :=
      { isStreaming := s.isStreaming, activeStreams := s.activeStreams,
        streamCalls := s.streamCalls, messages := s.messages + 1 }
    if stream then sendMessageStreamingStart pushed else pushed

/-- What can happen to the orchestrator: `sendMessage` is invoked, or a running
`sendMessageStreaming` leaves. -/
inductive Action where
  | sendMessage (hasInput hasApiKey hasChat stream : Bool) : Action
  | streamExit : Action
deriving DecidableEq

/-- One step of the orchestrator; a stream can only leave while one is running. -/
def step (s : State) : Action → State
  | Action.sendMessage hasInput hasApiKey hasChat stream =>
    sendMessage s hasInput hasApiKey hasChat stream
  | Action.streamExit => if s.activeStreams = 0 then s else sendMessageStreamingExit s

/-- The state reached from the initial one by a sequence of actions. -/
def run (actions : List Action) : State := actions.foldl step initial

/-- The streaming guard: at most one stream is running, and `isStreaming` says whether
one is. -/
def Guarded (s : State) : Prop :=
  s.activeStreams ≤ 1 ∧ (s.isStreaming = true ↔ s.activeStreams = 1)

end ChatGPTAdvanced

namespace Utils

/-! ## String and array helpers of `src/scripts/utils.js`

Strings whose length and positions matter are lists of UTF-16 code units, as
`length`, `substring` and `slice` count them. -/

/-- The UTF-16 code units of a text. -/
def units (s : String) : List Nat := OpenAIAPI.utf16Text s.toList

/-- White space and line terminators of ECMAScript, as code units. -/
def isWhiteSpaceUnit (u : Nat) : Bool :=
  u = 0x09 || u = 0x0A || u = 0x0B || u = 0x0C || u = 0x0D || u = 0x20 || u = 0xA0 ||
  u = 0x1680 || (0x2000 ≤ u && u ≤ 0x200A) || u = 0x2028 || u = 0x2029 || u = 0x202F ||
  u = 0x205F || u = 0x3000 || u = 0xFEFF

/-- The value of `s.trim()`. -/
def trimUnits (s : List Nat) : List Nat :=
  ((s.dropWhile isWhiteSpaceUnit).reverse.dropWhile isWhiteSpaceUnit).reverse

/-- Embedding of `truncateText(text, maxLength, suffix)` for a string `text`:
`text.substring(0, maxLength - suffix.length).trim() + suffix` when `text` is longer than
`maxLength`; `substring` reads a negative end as 0, as the subtraction on `Nat` does. -/
def truncateText (text : List Nat) (maxLength : Nat) (suffix : List Nat) : List Nat :=
  if text.length ≤ maxLength then text
  else trimUnits (text.take (maxLength - suffix.length)) ++ suffix

/-- The loop of `chunk`: `for (let i = 0; i < array.length; i += size)` pushing
`array.slice(i, i + size)`; `none` when the fuel runs out before the loop ends. -/
def chunkLoop {α : Type} (array : List α) (size : Nat) : Nat → Nat → Option (List (List α))
  | 0, _ => none
  | fuel + 1, i =>
    if i < array.length then
      (chunkLoop array size fuel (i + size)).map fun chunks =>
        ((array.drop i).take size) :: chunks
    else some []

/-- Embedding of `chunk(array, size)`, with fuel for one iteration per element and the
final test. -/
def chunk {α : Type} (array : List α) (size : Nat) : Option (List (List α)) :=
  chunkLoop array size (array.length + 1) 0

/-- Observable steps of `retry`: the call `fn()` of iteration `i`, and `sleep(ms)`. -/
inductive RetryStep where
  | call (i : Nat) : RetryStep
  | sleep (ms : Nat) : RetryStep
deriving DecidableEq

/-- How `retry` ends: `return await fn()`, `throw error`, or the end of the function
body, which returns `undefined`. -/
inductive RetryEnd (α ε : Type) where
  | returned (value : α) : RetryEnd α ε
  | thrown (error : ε) : RetryEnd α ε
  | undefined : RetryEnd α ε
deriving DecidableEq

/-- The `for (let i = 0; i <= retries; i++)` loop of `retry`, entered with the given `i`
and `currentDelay`; `fn k` is the outcome of the `k`-th call of `fn`.  The loop starts
with `retries + 1` units of fuel, one for each iteration its condition allows. -/
def retryLoop {α ε : Type} (fn : Nat → Except ε α) (retries backoff maxDelay : Nat) :
    Nat → Nat → Nat → RetryEnd α ε × List RetryStep
  | 0, _, _ => (RetryEnd.undefined, [])
  | fuel + 1, i, currentDelay =>
    if i ≤ retries then
      match fn i with
      | Except.ok value => (RetryEnd.returned value, [RetryStep.call i])
      | Except.error error =>
        if i = retries then (RetryEnd.thrown error, [RetryStep.call i])
        else
          let rest := retryLoop fn retries backoff maxDelay fuel (i + 1)
            (currentDelay * backoff)
          (rest.1, RetryStep.call i :: RetryStep.sleep (min currentDelay maxDelay) :: rest.2)
    else (RetryEnd.undefined, [])

/-- Embedding of `retry(fn, \x7bretries, delay, backoff, maxDelay\x7d)`. -/
def retry {α ε : Type} (fn : Nat → Except ε α) (retries delay backoff maxDelay : Nat) :
    RetryEnd α ε × List RetryStep :=
  retryLoop fn retries backoff maxDelay (retries + 1) 0 delay

/-- The steps of `n` failed calls from call `i` on under capped exponential backoff: after
the failed call `i` the wait is `min(delay × backoff^i, maxDelay)`. -/
def backoffSteps (delay backoff maxDelay : Nat) : Nat → Nat → List RetryStep
  | _, 0 => []
  | i, n + 1 =>
    RetryStep.call i :: RetryStep.sleep (min (delay * backoff ^ i) maxDelay)
      :: backoffSteps delay backoff maxDelay (i + 1) n

/-- The number of calls of `fn` in the steps of a run. -/
def calls (steps : List RetryStep) : Nat :=
  steps.countP fun s => match s with
    | RetryStep.call _ => true
    | RetryStep.sleep _ => false

/-! ## `gregorianToPersian` -/

/-- A value thrown by the JavaScript runtime: a `ReferenceError` for an identifier that
is not bound, or the `TypeError` of an assignment to a constant. -/
inductive JsThrow where
  | referenceError (identifier : String) : JsThrow
  | assignmentToConstant (identifier : String) : JsThrow
deriving DecidableEq

/-- The global bindings `gregorianToPersian` would fall back on for the identifiers it
uses without a declaration in scope; `none` when there is no such global. -/
structure Globals where
  days : Option Int
  jMonth : Option Int
  jDay : Option Int
deriving DecidableEq

/-- The script declares none of these globals. -/
def noGlobals : Globals := { days := none, jMonth := none, jDay := none }

/-- The result object `\x7byear, month, day\x7d`. -/
structure PersianDate where
  year : Int
  month : Int
  day : Int
deriving DecidableEq

/-- The value of `x | 0` for an integer `x`: `x` wrapped to a signed 32-bit integer. -/
def toInt32 (x : Int) : Int := (x + 2 ^ 31) % 2 ^ 32 - 2 ^ 31

/-- The value of `(a / b) | 0` for integers: the quotient truncated toward zero. -/
def quotient (a b : Int) : Int := toInt32 (a.tdiv b)

/-- The table `g_d_m`. -/
def gDM : List Int := [0, 31, 59, 90, 120, 151, 181, 212, 243, 273, 304, 334]

/-- The value of the constant `days` declared inside the two branches of
`if (gMonth > 2)`; `none` is `NaN`, for a month outside the table.  Each declaration is
scoped to its block. -/
def blockDays (gYear gMonth gDay : Int) : Option Int :=
  (if 1 ≤ gMonth then gDM.get? (gMonth - 1).toNat else none).map fun dm =>
    if gMonth > 2 then
      365 * gYear + quotient (gYear + 1) 4 - quotient (gYear + 1) 100
        + quotient (gYear + 1) 400 - 80 + gDay + dm
    else
      365 * gYear + quotient gYear 4 - quotient gYear 100 + quotient gYear 400 - 80 + gDay + dm

/-- Embedding of `gregorianToPersian(gYear, gMonth, gDay)`.  The `days` computed in the
branches goes out of scope with its block, so `days` after the `if` is a free identifier:
a global of that name, or a `ReferenceError`.  `jYear` is a `const`, so `jYear += ...`
throws; `jMonth` and `jDay` are never declared, so the `return` reads globals of those
names, or throws. -/
def gregorianToPersian (globals : Globals) (gYear gMonth gDay : Int) :
    Except JsThrow PersianDate :=
  let _ := blockDays gYear gMonth gDay
  match globals.days with
  | none => Except.error (JsThrow.referenceError "days")
  | some days =>
    let jYear := -14 + 33 * quotient days 12053
    let jDays0 := days.tmod 12053
    let jDays := jDays0 + 1029983 * quotient jDays0 1029983
    if jDays ≥ 366 then Except.error (JsThrow.assignmentToConstant "jYear")
    else
      match globals.jMonth, globals.jDay with
      | some jMonth, some jDay => Except.ok { year := jYear, month := jMonth, day := jDay }
      | none, _ => Except.error (JsThrow.referenceError "jMonth")
      | some _, none => Except.error (JsThrow.referenceError "jDay")

/-! ## `shuffle` -/

/-- The assignment `[result[i], result[j]] = [result[j], result[i]]` for positions inside
the array. -/
def swapAt {α : Type} (result : List α) (i j : Nat) : List α :=
  match result.get? i, result.get? j with
  | some a, some b => (result.set i b).set j a
  | _, _ => result

/-- The loop `for (let i = result.length - 1; i > 0; i--)` of `shuffle`, entered with the
given `i`; `draw i` is the value of `Math.floor(Math.random() * (i + 1))` drawn in the
iteration for `i`, one of `0..i`. -/
def shuffleLoop {α : Type} (draw : (i : Nat) → Fin (i + 1)) : Nat → List α → List α
  | 0, result => result
  | i + 1, result => shuffleLoop draw i (swapAt result (i + 1) (draw (i + 1)).val)

/-- The two arrays at the end of `shuffle`: the argument and the returned copy. -/
structure Shuffled (α : Type) where
  array : List α
  result : List α

/-- Embedding of `shuffle(array)`: `result = [...array]`, the loop on `result`,
`return result`; `array` itself is not assigned to. -/
def shuffle {α : Type} (draw : (i : Nat) → Fin (i + 1)) (array : List α) : Shuffled α :=
  { array := array, result := shuffleLoop draw (array.length - 1) array }

/-! ## `escapeHtml` and `unescapeHtml` -/

/-- The value of `s.replace(/pat/g, rep)` for a literal, non-empty pattern: the matches
are found from left to right and do not overlap; `skip` counts the characters of a match
still to be passed over. -/
def replaceFrom (pat rep : List Char) : Nat → List Char → List Char
  | _, [] => []
  | skip + 1, _ :: cs => replaceFrom pat rep skip cs
  | 0, c :: cs =>
    if pat.isPrefixOf (c :: cs) then rep ++ replaceFrom pat rep (pat.length - 1) cs
    else c :: replaceFrom pat rep 0 cs

/-- The value of `s.replace(/pat/g, rep)`. -/
def replaceAll (pat rep : String) (s : List Char) : List Char :=
  replaceFrom pat.toList rep.toList 0 s

/-- Embedding of `escapeHtml` for a string argument. -/
def escapeHtml (input : List Char) : List Char :=
  replaceAll "'" "&#039;" (replaceAll "\"" "&quot;" (replaceAll ">" "&gt;"
    (replaceAll "<" "&lt;" (replaceAll "&" "&amp;" input))))

/-- Embedding of `unescapeHtml` for a string argument. -/
def unescapeHtml (safe : List Char) : List Char :=
  replaceAll "&#039;" "'" (replaceAll "&quot;" "\"" (replaceAll "&gt;" ">"
    (replaceAll "&lt;" "<" (replaceAll "&amp;" "&" safe))))

/-! ## `getFileExtension` -/

/-- Scan for `lastIndexOf`: `i` is the position of the next character, `found` the last
position of `c` seen so far. -/
def lastIndexOfFrom (c : Char) : List Char → Nat → Int → Int
  | [], _, found => found
  | x :: xs, i, found => lastIndexOfFrom c xs (i + 1) (if x = c then (i : Int) else found)

/-- The value of `s.lastIndexOf(c)`: the last position of `c`, or `-1`. -/
def lastIndexOf (c : Char) (s : List Char) : Int := lastIndexOfFrom c s 0 (-1)

/-- Embedding of `getFileExtension`:
`filename.slice((filename.lastIndexOf('.') - 1 >>> 0) + 2)`, where `x >>> 0` is `x` modulo
`2^32`. -/
def getFileExtension (filename : List Char) : List Char :=
  filename.drop (((lastIndexOf '.' filename - 1) % 2 ^ 32).toNat + 2)

end Utils

namespace OpenAIAPI

/-! ## Lemmas on `split` -/

theorem split_ne_nil (s : List Char) : split s ≠ [] := by
  cases s with
  | nil => simp [split]
  | cons c cs =>
    simp only [split]
    split_ifs
    · simp
    · split <;> simp

theorem split_of_not_mem (l : List Char) (h : '\n' ∉ l) : split l = [l] := by
  induction l with
  | nil => rfl
  | cons c cs ih =>
    have hc : c ≠ '\n' := fun e => h (by simp [e])
    have hcs : '\n' ∉ cs := fun e => h (List.mem_cons_of_mem _ e)
    simp [split, hc, ih hcs]

theorem split_append_break (l t : List Char) (h : '\n' ∉ l) :
    split (l ++ '\n' :: t) = l :: split t := by
  induction l with
  | nil => simp [split]
  | cons c cs ih =>
    have hc : c ≠ '\n' := fun e => h (by simp [e])
    have hcs : '\n' ∉ cs := fun e => h (List.mem_cons_of_mem _ e)
    simp [split, hc, ih hcs]

theorem first_break (s : List Char) :
    '\n' ∉ s ∨ ∃ l t, s = l ++ '\n' :: t ∧ '\n' ∉ l := by
  induction s with
  | nil => left; simp
  | cons c cs ih =>
    by_cases hc : c = '\n'
    · right; exact ⟨[], cs, by simp [hc], by simp⟩
    · rcases ih with h | ⟨l, t, rfl, hl⟩
      · left
        intro hm
        rcases List.mem_cons.1 hm with e | e
        · exact hc e.symm
        · exact h e
      · right
        refine ⟨c :: l, t, by simp, ?_⟩
        intro hm
        rcases List.mem_cons.1 hm with e | e
        · exact hc e.symm
        · exact hl e

theorem completeLines_of_not_mem (l : List Char) (h : '\n' ∉ l) : completeLines l = [] := by
  simp [completeLines, split_of_not_mem l h]

theorem partialLine_of_not_mem (l : List Char) (h : '\n' ∉ l) : partialLine l = l := by
  simp [partialLine, split_of_not_mem l h]

theorem completeLines_append_break (l t : List Char) (h : '\n' ∉ l) :
    completeLines (l ++ '\n' :: t) = l :: completeLines t := by
  simp only [completeLines, split_append_break l t h]
  exact List.dropLast_cons_of_ne_nil (split_ne_nil t)

theorem partialLine_append_break (l t : List Char) (h : '\n' ∉ l) :
    partialLine (l ++ '\n' :: t) = partialLine t := by
  simp only [partialLine, split_append_break l t h]
  cases hs : split t with
  | nil => exact absurd hs (split_ne_nil t)
  | cons a as => simp [List.getLast?_cons_cons]

theorem line_induction {P : List Char → Prop} (s : List Char)
    (base : ∀ l, '\n' ∉ l → P l)
    (step : ∀ l t, '\n' ∉ l → P t → P (l ++ '\n' :: t)) : P s := by
  suffices h : ∀ n, ∀ s : List Char, s.length = n → P s from h _ s rfl
  intro n
  induction n using Nat.strong_induction_on with
  | _ n ih =>
    intro s hn
    rcases first_break s with h | ⟨l, t, rfl, hl⟩
    · exact base s h
    · exact step l t hl (ih t.length (by subst hn; simp; omega) t rfl)

theorem partialLine_not_mem (s : List Char) : '\n' ∉ partialLine s := by
  induction s using line_induction with
  | base l h => rw [partialLine_of_not_mem l h]; exact h
  | step l t hl ih => rw [partialLine_append_break l t hl]; exact ih

theorem completeLines_append (x y : List Char) :
    completeLines (x ++ y) = completeLines x ++ completeLines (partialLine x ++ y) := by
  induction x using line_induction with
  | base l h => simp [completeLines_of_not_mem l h, partialLine_of_not_mem l h]
  | step l t hl ih =>
    have e : l ++ '\n' :: t ++ y = l ++ '\n' :: (t ++ y) := by simp
    rw [e, completeLines_append_break l (t ++ y) hl, completeLines_append_break l t hl,
      partialLine_append_break l t hl, ih]
    simp

theorem partialLine_append (x y : List Char) :
    partialLine (x ++ y) = partialLine (partialLine x ++ y) := by
  induction x using line_induction with
  | base l h => simp [partialLine_of_not_mem l h]
  | step l t hl ih =>
    have e : l ++ '\n' :: t ++ y = l ++ '\n' :: (t ++ y) := by simp
    rw [e, partialLine_append_break l (t ++ y) hl, partialLine_append_break l t hl, ih]

/-! ## `split` against the scan of terminated lines -/

theorem terminatedLinesAux_of_not_mem (cur l : List Char) (h : '\n' ∉ l) :
    terminatedLinesAux cur l = [] := by
  induction l generalizing cur with
  | nil => rfl
  | cons c cs ih =>
    have hc : c ≠ '\n' := fun e => h (by simp [e])
    have hcs : '\n' ∉ cs := fun e => h (List.mem_cons_of_mem _ e)
    simp [terminatedLinesAux, hc, ih _ hcs]

theorem terminatedLinesAux_append_break (cur l t : List Char) (h : '\n' ∉ l) :
    terminatedLinesAux cur (l ++ '\n' :: t) = (cur.reverse ++ l) :: terminatedLinesAux [] t := by
  induction l generalizing cur with
  | nil => simp [terminatedLinesAux]
  | cons c cs ih =>
    have hc : c ≠ '\n' := fun e => h (by simp [e])
    have hcs : '\n' ∉ cs := fun e => h (List.mem_cons_of_mem _ e)
    simp [terminatedLinesAux, hc, ih _ hcs]

theorem completeLines_eq_terminatedLines (s : List Char) :
    completeLines s = terminatedLines s := by
  induction s using line_induction with
  | base l h =>
    rw [completeLines_of_not_mem l h, terminatedLines, terminatedLinesAux_of_not_mem _ l h]
  | step l t hl ih =>
    rw [completeLines_append_break l t hl, terminatedLines,
      terminatedLinesAux_append_break [] l t hl, ih]
    simp [terminatedLines]

theorem takeWhile_append_stop {β : Type} (p : β → Bool) (a b : List β) (c : β)
    (hc : p c = false) : (a ++ c :: b).takeWhile p = a.takeWhile p := by
  induction a with
  | nil => simp [List.takeWhile, hc]
  | cons x xs ih =>
    simp only [List.cons_append, List.takeWhile]
    cases p x <;> simp [ih]

theorem afterLastLineBreak_of_not_mem (l : List Char) (h : '\n' ∉ l) :
    afterLastLineBreak l = l := by
  have : l.reverse.takeWhile (fun c => decide (c ≠ '\n')) = l.reverse := by
    apply List.takeWhile_eq_self_iff.2
    intro c hc
    have : c ≠ '\n' := fun e => h (by simpa [e] using hc)
    simpa using this
  unfold afterLastLineBreak
  rw [this, List.reverse_reverse]

theorem afterLastLineBreak_append_break (l t : List Char) :
    afterLastLineBreak (l ++ '\n' :: t) = afterLastLineBreak t := by
  simp only [afterLastLineBreak, List.reverse_append, List.reverse_cons, List.append_assoc,
    List.singleton_append]
  rw [takeWhile_append_stop _ _ _ _ (by simp)]

theorem partialLine_eq_afterLastLineBreak (s : List Char) :
    partialLine s = afterLastLineBreak s := by
  induction s using line_induction with
  | base l h => rw [partialLine_of_not_mem l h, afterLastLineBreak_of_not_mem l h]
  | step l t hl ih =>
    rw [partialLine_append_break l t hl, afterLastLineBreak_append_break, ih]

/-! ## The read loop in closed form -/

theorem runReads_closed {σ α : Type} (decode : σ → List Nat → σ × List Char)
    (parse : List Char → Option α) (st : ReaderState σ) (reads : List (List Nat))
    (hb : '\n' ∉ st.buffer) :
    (runReads decode parse st reads).1.buffer
        = partialLine (st.buffer ++ receivedText decode st.decoder reads) ∧
      (runReads decode parse st reads).2
        = processLines parse (completeLines (st.buffer ++ receivedText decode st.decoder reads)) := by
  induction reads generalizing st with
  | nil =>
    simp [runReads, receivedText, partialLine_of_not_mem _ hb, completeLines_of_not_mem _ hb,
      processLines]
  | cons value rest ih =>
    have hstep := ih (readStep decode parse st value).1 (by
      simp only [readStep]; exact partialLine_not_mem _)
    simp only [runReads, receivedText]
    rw [hstep.1, hstep.2]
    simp only [readStep]
    constructor
    · rw [← List.append_assoc, partialLine_append (st.buffer ++ (decode st.decoder value).2)]
      rfl
    · rw [← List.append_assoc, completeLines_append (st.buffer ++ (decode st.decoder value).2)]
      simp [processLines, completeLines, partialLine]

theorem parseStreamResponse_closed {σ α : Type} (decode : σ → List Nat → σ × List Char)
    (parse : List Char → Option α) (s0 : σ) (reads : List (List Nat)) :
    parseStreamResponse decode parse s0 reads
      = processLines parse (terminatedLines (receivedText decode s0 reads)) := by
  have h := (runReads_closed decode parse { decoder := s0, buffer := [] } reads (by simp)).2
  simpa [parseStreamResponse, completeLines_eq_terminatedLines] using h

theorem receivedText_flatten {σ : Type} (decode : σ → List Nat → σ × List Char)
    (hd : StreamingDecoder decode) (s : σ) (value : List Nat) (rest : List (List Nat)) :
    receivedText decode s (value :: rest) = (decode s (value :: rest).flatten).2 := by
  induction rest generalizing s value with
  | nil => simp [receivedText]
  | cons w rest ih =>
    have e : (value :: w :: rest).flatten = value ++ (w :: rest).flatten := rfl
    rw [receivedText, ih, e, hd s value]

theorem scriptAB_chunks :
    processLines jsonParse (terminatedLines scriptAB) = [contentChunk "A", contentChunk "B"] := by
  rfl

theorem byteDecode_streaming : StreamingDecoder byteDecode := by
  intro s a b
  simp [byteDecode]

theorem partialLine_of_atLineStart (pre : List Char) (h : AtLineStart pre) :
    partialLine pre = [] := by
  rcases h with rfl | h
  · rfl
  · obtain ⟨p, rfl⟩ : ∃ p, pre = p ++ ['\n'] := by
      rcases List.eq_nil_or_concat pre with e | ⟨p, c, e⟩
      · simp [e] at h
      · subst e
        simp at h
        exact ⟨p, by simp [h]⟩
    rw [partialLine_eq_afterLastLineBreak, afterLastLineBreak_append_break]
    rfl

theorem terminatedLines_append (pre rest : List Char) (h : AtLineStart pre) :
    terminatedLines (pre ++ rest) = terminatedLines pre ++ terminatedLines rest := by
  rw [← completeLines_eq_terminatedLines, ← completeLines_eq_terminatedLines,
    ← completeLines_eq_terminatedLines, completeLines_append,
    partialLine_of_atLineStart pre h]
  rfl

theorem terminatedLines_line (line post : List Char) (h : '\n' ∉ line) :
    terminatedLines (line ++ '\n' :: post) = line :: terminatedLines post := by
  rw [← completeLines_eq_terminatedLines, ← completeLines_eq_terminatedLines,
    completeLines_append_break line post h]

theorem processLines_around {α : Type} (parse : List Char → Option α)
    (pre line post : List Char) (hpre : AtLineStart pre) (hline : '\n' ∉ line) :
    processLines parse (terminatedLines (pre ++ line ++ '\n' :: post))
      = processLines parse (terminatedLines pre) ++ (processLine parse line).toList
        ++ processLines parse (terminatedLines post) := by
  rw [List.append_assoc, terminatedLines_append pre _ hpre, terminatedLines_line line post hline]
  simp only [processLines, List.filterMap_append, List.filterMap_cons]
  cases processLine parse line <;> simp

theorem processLine_eq_frame {α : Type} (parse : List Char → Option α)
    (hdone : parse "[DONE]".toList = none) (line : List Char) :
    processLine parse line = (framePayload line).bind parse := by
  unfold processLine framePayload
  by_cases h1 : trim line = []
  · simp [h1, dataMarker]
  · by_cases h2 : trim line = doneLine
    · have e : doneLine.drop 6 = "[DONE]".toList := by decide
      have e2 : dataMarker.isPrefixOf doneLine = true := by decide
      rw [if_pos (Or.inr h2), h2, if_pos e2, e]
      exact hdone.symm
    · simp only [h1, h2, or_self, if_false]
      split_ifs <;> simp

theorem runReads_append {σ α : Type} (decode : σ → List Nat → σ × List Char)
    (parse : List Char → Option α) (st : ReaderState σ) (a b : List (List Nat)) :
    runReads decode parse st (a ++ b)
      = ((runReads decode parse (runReads decode parse st a).1 b).1,
         (runReads decode parse st a).2
           ++ (runReads decode parse (runReads decode parse st a).1 b).2) := by
  induction a generalizing st with
  | nil => simp [runReads]
  | cons value rest ih => simp [runReads, ih]

/-! ## Claims on the stream decoder -/

/-- C1: split-invariance.  For a streaming text decoder, the chunks yielded for a content
delivered in any sequence of one or more reads (empty reads included) are the chunks
yielded when the whole content arrives in a single read. -/
theorem parseStreamResponse_split_invariant {σ α : Type}
    (decode : σ → List Nat → σ × List Char) (hd : StreamingDecoder decode)
    (parse : List Char → Option α) (s0 : σ) (reads : List (List Nat)) (hne : reads ≠ []) :
    parseStreamResponse decode parse s0 reads
      = parseStreamResponse decode parse s0 [reads.flatten] := by
  cases reads with
  | nil => exact absurd rfl hne
  | cons value rest =>
    rw [parseStreamResponse_closed, parseStreamResponse_closed,
      receivedText_flatten decode hd, receivedText_flatten decode hd]
    simp

theorem parseStreamResponse_split_invariant_witness :
    StreamingDecoder byteDecode ∧
    [bytesOf "da", bytesOf "ta: 1\ndata", [], bytesOf ": [2]\n", bytesOf "data: 3"] ≠ [] ∧
    parseStreamResponse byteDecode jsonParse ()
        [bytesOf "da", bytesOf "ta: 1\ndata", [], bytesOf ": [2]\n", bytesOf "data: 3"]
      = parseStreamResponse byteDecode jsonParse ()
        [[bytesOf "da", bytesOf "ta: 1\ndata", [], bytesOf ": [2]\n", bytesOf "data: 3"].flatten] :=
  ⟨byteDecode_streaming, by simp,
    parseStreamResponse_split_invariant byteDecode byteDecode_streaming jsonParse () _ (by simp)⟩

/-- C2, as stated, fails: a well-formed data line that follows `data: [DONE]` in the same
read is still parsed and yielded; cut at the sentinel, the same stream yields nothing. -/
theorem done_sentinel_does_not_end_emission :
    parseStreamResponse byteDecode jsonParse ()
        [bytesOf "data: [DONE]\ndata: \x7b\"after\":true\x7d\n"]
      = [JSON.obj [(utf16Text "after".toList, JSON.bool true)]] ∧
    parseStreamResponse byteDecode jsonParse () [bytesOf "data: [DONE]\n"] = [] := by
  constructor <;> rfl

/-- C2, amended: a line `data: [DONE]` yields no chunk and is skipped like an empty line;
the chunks yielded are those of the text before it followed by those of the text after
it, so emission ends with the stream and not at the sentinel. -/
theorem done_sentinel_is_skipped {σ α : Type}
    (decode : σ → List Nat → σ × List Char) (parse : List Char → Option α) (s0 : σ)
    (reads readsBefore readsAfter : List (List Nat)) (pre line post : List Char)
    (hpre : AtLineStart pre) (hline : '\n' ∉ line) (hdone : trim line = doneLine)
    (hreads : receivedText decode s0 reads = pre ++ line ++ '\n' :: post)
    (hbefore : receivedText decode s0 readsBefore = pre)
    (hafter : receivedText decode s0 readsAfter = post) :
    parseStreamResponse decode parse s0 reads
      = parseStreamResponse decode parse s0 readsBefore
        ++ parseStreamResponse decode parse s0 readsAfter := by
  rw [parseStreamResponse_closed, parseStreamResponse_closed, parseStreamResponse_closed,
    hreads, hbefore, hafter, processLines_around parse pre line post hpre hline]
  have : processLine parse line = none := by
    simp [processLine, hdone]
  simp [this]

theorem done_sentinel_is_skipped_witness :
    parseStreamResponse byteDecode jsonParse ()
        [bytesOf "data: 1\n\n", bytesOf "  data: [DONE]\r\ndata: 2\n"]
      = parseStreamResponse byteDecode jsonParse () [bytesOf "data: 1\n\n"]
        ++ parseStreamResponse byteDecode jsonParse () [bytesOf "data: 2\n"] ∧
    parseStreamResponse byteDecode jsonParse () [bytesOf "data: 2\n"] = [JSON.num ['2']] :=
  ⟨done_sentinel_is_skipped byteDecode jsonParse ()
      [bytesOf "data: 1\n\n", bytesOf "  data: [DONE]\r\ndata: 2\n"]
      [bytesOf "data: 1\n\n"] [bytesOf "data: 2\n"]
      "data: 1\n\n".toList "  data: [DONE]\r".toList "data: 2\n".toList
      (Or.inr (by decide)) (by decide) (by decide) (by decide) (by decide) (by decide),
    by rfl⟩

/-- C3: a `data: ` line whose payload `JSON.parse` rejects yields no chunk and the
sequence neither stops nor fails there: the chunks yielded equal those yielded for the
same content with that line removed, so the well-formed frames after it are still
yielded. -/
theorem malformed_frame_is_skipped {σ α : Type}
    (decode : σ → List Nat → σ × List Char) (parse : List Char → Option α) (s0 : σ)
    (reads readsWithout : List (List Nat)) (pre line post : List Char)
    (hpre : AtLineStart pre) (hline : '\n' ∉ line)
    (hdata : dataMarker.isPrefixOf (trim line) = true)
    (hbad : parse ((trim line).drop 6) = none)
    (hreads : receivedText decode s0 reads = pre ++ line ++ '\n' :: post)
    (hwithout : receivedText decode s0 readsWithout = pre ++ post) :
    parseStreamResponse decode parse s0 reads
      = parseStreamResponse decode parse s0 readsWithout := by
  rw [parseStreamResponse_closed, parseStreamResponse_closed, hreads, hwithout,
    processLines_around parse pre line post hpre hline, terminatedLines_append pre post hpre]
  have : processLine parse line = none := by
    simp only [processLine]
    split_ifs <;> simp [hbad]
  simp [this, processLines]

theorem malformed_frame_is_skipped_witness :
    parseStreamResponse byteDecode jsonParse ()
        [bytesOf "data: 1\ndata: \x7bbroken\n", bytesOf "data: 2\n"]
      = parseStreamResponse byteDecode jsonParse () [bytesOf "data: 1\ndata: 2\n"] ∧
    parseStreamResponse byteDecode jsonParse () [bytesOf "data: 1\ndata: 2\n"]
      = [JSON.num ['1'], JSON.num ['2']] :=
  ⟨malformed_frame_is_skipped byteDecode jsonParse ()
      [bytesOf "data: 1\ndata: \x7bbroken\n", bytesOf "data: 2\n"]
      [bytesOf "data: 1\ndata: 2\n"]
      "data: 1\n".toList "data: \x7bbroken".toList "data: 2\n".toList
      (Or.inr (by decide)) (by decide) (by decide) (by rfl) (by decide) (by decide),
    by rfl⟩

/-- C4: after every read (the state reached after the reads so far), the chunks yielded
are exactly those of the lines already terminated by a line break, the buffer is exactly
the text received after the last line break and holds no line break, and the next read is
processed by prefixing that buffer to its text before splitting; the unterminated tail is
never parsed. -/
theorem buffer_is_partial_line {σ α : Type}
    (decode : σ → List Nat → σ × List Char) (parse : List Char → Option α) (s0 : σ)
    (reads : List (List Nat)) (value : List Nat) :
    (runReads decode parse { decoder := s0, buffer := [] } reads).1.buffer
        = afterLastLineBreak (receivedText decode s0 reads) ∧
    (runReads decode parse { decoder := s0, buffer := [] } reads).2
        = processLines parse (terminatedLines (receivedText decode s0 reads)) ∧
    runReads decode parse { decoder := s0, buffer := [] } (reads ++ [value])
        = ((readStep decode parse
              (runReads decode parse { decoder := s0, buffer := [] } reads).1 value).1,
           (runReads decode parse { decoder := s0, buffer := [] } reads).2
             ++ (readStep decode parse
              (runReads decode parse { decoder := s0, buffer := [] } reads).1 value).2) ∧
    (readStep decode parse
        (runReads decode parse { decoder := s0, buffer := [] } reads).1 value).2
      = processLines parse
          (split ((runReads decode parse { decoder := s0, buffer := [] } reads).1.buffer
            ++ (decode (runReads decode parse { decoder := s0, buffer := [] } reads).1.decoder
                  value).2)).dropLast := by
  have h := runReads_closed decode parse { decoder := s0, buffer := [] } reads (by simp)
  refine ⟨?_, ?_, ?_, rfl⟩
  · rw [h.1, partialLine_eq_afterLastLineBreak]; rfl
  · rw [h.2, completeLines_eq_terminatedLines]; rfl
  · rw [runReads_append]
    simp [runReads]

/-- C5: for a `JSON.parse` that rejects the text `[DONE]`, the chunks yielded over any
sequence of reads are exactly the parses of the payloads of the successfully parsed
frames (terminated lines that, trimmed, start with `data: `, with that prefix stripped),
one per frame and in the order of the lines in the received text. -/
theorem emitted_chunks_are_parsed_frames {σ α : Type}
    (decode : σ → List Nat → σ × List Char) (parse : List Char → Option α)
    (hdone : parse "[DONE]".toList = none) (s0 : σ) (reads : List (List Nat)) :
    parseStreamResponse decode parse s0 reads
      = parsedFrames parse (receivedText decode s0 reads) := by
  rw [parseStreamResponse_closed]
  simp only [processLines, parsedFrames]
  congr 1
  funext line
  exact processLine_eq_frame parse hdone line

theorem emitted_chunks_are_parsed_frames_witness :
    jsonParse "[DONE]".toList = none ∧
    parseStreamResponse byteDecode jsonParse ()
        [bytesOf "data: 1\n: note\n da", bytesOf "ta: [2] \r\ndata: [DONE]\n\ndata: 3"]
      = parsedFrames jsonParse
          (receivedText byteDecode ()
            [bytesOf "data: 1\n: note\n da", bytesOf "ta: [2] \r\ndata: [DONE]\n\ndata: 3"]) ∧
    parsedFrames jsonParse
        (receivedText byteDecode ()
          [bytesOf "data: 1\n: note\n da", bytesOf "ta: [2] \r\ndata: [DONE]\n\ndata: 3"])
      = [JSON.num ['1'], JSON.arr [JSON.num ['2']]] :=
  ⟨by rfl, emitted_chunks_are_parsed_frames byteDecode jsonParse (by rfl) () _, by rfl⟩

/-- C6: when the text received, in any grouping of reads, is the scripted stream of two
content frames `A` and `B` followed by `data: [DONE]`, exactly two chunks are yielded and
the consumer loop concatenates their `choices[0].delta.content` to `AB`. -/
theorem scripted_stream_yields_AB {σ : Type}
    (decode : σ → List Nat → σ × List Char) (s0 : σ) (reads : List (List Nat))
    (truthyNumber : List Char → Bool) (toText : JSON → List Nat)
    (hreads : receivedText decode s0 reads = scriptAB) :
    parseStreamResponse decode jsonParse s0 reads = [contentChunk "A", contentChunk "B"] ∧
    (parseStreamResponse decode jsonParse s0 reads).length = 2 ∧
    fullContent truthyNumber toText (parseStreamResponse decode jsonParse s0 reads) []
      = some (utf16Text "AB".toList) := by
  have h : parseStreamResponse decode jsonParse s0 reads
      = [contentChunk "A", contentChunk "B"] := by
    rw [parseStreamResponse_closed, hreads, scriptAB_chunks]
  rw [h]
  exact ⟨rfl, rfl, rfl⟩

theorem scripted_stream_yields_AB_witness :
    receivedText byteDecode ()
        [(scriptAB.map Char.toNat).take 20, [], (scriptAB.map Char.toNat).drop 20] = scriptAB ∧
    fullContent (fun _ => true) (fun _ => [])
        (parseStreamResponse byteDecode jsonParse ()
          [(scriptAB.map Char.toNat).take 20, [], (scriptAB.map Char.toNat).drop 20]) []
      = some [65, 66] :=
  ⟨by decide,
    (scripted_stream_yields_AB byteDecode ()
      [(scriptAB.map Char.toNat).take 20, [], (scriptAB.map Char.toNat).drop 20]
      (fun _ => true) (fun _ => []) (by decide)).2.2⟩

/-! ## Lemmas on the retry loop -/

theorem withRetryLoop_cases (fn : Nat → Outcome) (m b fuel a : Nat) (le : Option JsError)
    (ha : a ≤ m) :
    (Retries fn m a ∧ ∃ le', withRetryLoop fn m b (fuel + 1) a le
        = RetryRun.after [Event.call a, Event.sleep (retryDelay fn b a)]
            (withRetryLoop fn m b fuel (a + 1) le')) ∨
    (¬ Retries fn m a ∧ (withRetryLoop fn m b (fuel + 1) a le).trace = [Event.call a]) := by
  simp only [withRetryLoop, if_pos ha, Retries, retryDelay]
  cases hfn : fn a with
  | resolve result =>
    by_cases h429 : result.status = 429
    · by_cases hlt : a < m
      · left; simp only [h429, hlt, if_true, and_self, true_and]; exact ⟨_, rfl⟩
      · right; simp [h429, hlt]
    · right; simp [h429]
  | reject error =>
    by_cases hr : a < m ∧ isRetryableError error = true
    · left; simp only [hr, and_self, if_true, true_and]; exact ⟨_, rfl⟩
    · right
      simp only [if_neg hr]
      exact ⟨hr, trivial⟩

theorem call_mem_ge (fn : Nat → Outcome) (m b fuel a i : Nat) (le : Option JsError)
    (h : Event.call i ∈ (withRetryLoop fn m b fuel a le).trace) : a ≤ i := by
  induction fuel generalizing a le with
  | zero => simp [withRetryLoop] at h
  | succ fuel ih =>
    by_cases ha : a ≤ m
    · rcases withRetryLoop_cases fn m b fuel a le ha with ⟨_, le', e⟩ | ⟨_, e⟩
      · rw [e] at h
        simp only [RetryRun.after, List.cons_append, List.nil_append, List.mem_cons,
          Event.call.injEq, reduceCtorEq, false_or] at h
        rcases h with h | h
        · omega
        · have := ih (a + 1) le' h
          omega
      · rw [e] at h
        simp at h
        omega
    · simp [withRetryLoop, ha] at h

theorem call_mem_self (fn : Nat → Outcome) (m b fuel a : Nat) (le : Option JsError)
    (ha : a ≤ m) : Event.call a ∈ (withRetryLoop fn m b (fuel + 1) a le).trace := by
  rcases withRetryLoop_cases fn m b fuel a le ha with ⟨_, le', e⟩ | ⟨_, e⟩
  · rw [e]; simp [RetryRun.after]
  · rw [e]; simp

theorem waitAfter_skip (a i : Nat) (d : Option Int) (rest : List Event) (h : a ≠ i) :
    waitAfter (Event.call a :: Event.sleep d :: rest) i = waitAfter rest i := by
  simp [waitAfter, h]

theorem waitAfter_here (a : Nat) (d : Option Int) (rest : List Event) :
    waitAfter (Event.call a :: Event.sleep d :: rest) a = some d := by
  simp [waitAfter]

theorem next_call_of_retries (fn : Nat → Outcome) (m b fuel a i : Nat) (le : Option JsError)
    (hfuel : m + 1 ≤ fuel + a)
    (h : Event.call i ∈ (withRetryLoop fn m b fuel a le).trace) (hr : Retries fn m i) :
    Event.call (i + 1) ∈ (withRetryLoop fn m b fuel a le).trace ∧
      waitAfter (withRetryLoop fn m b fuel a le).trace i = some (retryDelay fn b i) := by
  induction fuel generalizing a le with
  | zero => simp [withRetryLoop] at h
  | succ fuel ih =>
    by_cases ha : a ≤ m
    · rcases withRetryLoop_cases fn m b fuel a le ha with ⟨_, le', e⟩ | ⟨hn, e⟩
      · rw [e] at h ⊢
        simp only [RetryRun.after, List.cons_append, List.nil_append, List.mem_cons,
          Event.call.injEq, reduceCtorEq, false_or] at h ⊢
        rcases h with h | h
        · subst h
          refine ⟨Or.inr ?_, waitAfter_here _ _ _⟩
          have hi : i + 1 ≤ m := hr.1
          obtain ⟨f, rfl⟩ : ∃ f, fuel = f + 1 := ⟨fuel - 1, by omega⟩
          exact call_mem_self fn m b f (i + 1) le' hi
        · have hge := call_mem_ge fn m b fuel (a + 1) i le' h
          have := ih (a + 1) le' (by omega) h
          refine ⟨Or.inr this.1, ?_⟩
          rw [waitAfter_skip _ _ _ _ (by omega)]
          exact this.2
      · rw [e] at h
        simp at h
        subst h
        exact absurd hr hn
    · simp [withRetryLoop, ha] at h

theorem wait_of_next_call (fn : Nat → Outcome) (m b fuel a i : Nat) (le : Option JsError)
    (hai : a ≤ i) (h : Event.call (i + 1) ∈ (withRetryLoop fn m b fuel a le).trace) :
    Retries fn m i ∧
      waitAfter (withRetryLoop fn m b fuel a le).trace i = some (retryDelay fn b i) := by
  induction fuel generalizing a le with
  | zero => simp [withRetryLoop] at h
  | succ fuel ih =>
    by_cases ha : a ≤ m
    · rcases withRetryLoop_cases fn m b fuel a le ha with ⟨hr, le', e⟩ | ⟨_, e⟩
      · rw [e] at h ⊢
        simp only [RetryRun.after, List.cons_append, List.nil_append, List.mem_cons,
          Event.call.injEq, reduceCtorEq, false_or] at h ⊢
        rcases h with h | h
        · omega
        · by_cases hia : i = a
          · subst hia
            exact ⟨hr, waitAfter_here _ _ _⟩
          · have := ih (a + 1) le' (by omega) h
            refine ⟨this.1, ?_⟩
            rw [waitAfter_skip _ _ _ _ (by omega)]
            exact this.2
      · rw [e] at h
        simp at h
        omega
    · simp [withRetryLoop, ha] at h

theorem rateLimitDelay_of_hint (r : Response) (b a : Nat) (v : List Char)
    (hh : r.header "Retry-After".toList = some v) (hv : v ≠ []) :
    rateLimitDelay r b a = (parseInt v).map fun n => n * 1000 := by
  unfold rateLimitDelay
  rw [hh]
  simp [hv]

theorem rateLimitDelay_of_no_hint (r : Response) (b a : Nat)
    (hh : r.header "Retry-After".toList = none ∨ r.header "Retry-After".toList = some []) :
    rateLimitDelay r b a = some ((b : Int) * 2 ^ a) := by
  unfold rateLimitDelay
  rcases hh with hh | hh
  · rw [hh]
  · rw [hh]
    simp

/-! ## Claims on the retry policy -/

/-- C7: when every attempt resolves with a 500 response, `withRetry` calls the request
function exactly once, hence at most `maxRetries` times for every `maxRetries >= 1` and
every `baseDelay`. -/
theorem withRetry_500_at_most_maxRetries (fn : Nat → Outcome) (maxRetries baseDelay : Nat)
    (hmax : 1 ≤ maxRetries)
    (h500 : ∀ k, ∃ r, fn k = Outcome.resolve r ∧ r.status = 500) :
    attempts (withRetry fn maxRetries baseDelay).trace = 1 ∧
      attempts (withRetry fn maxRetries baseDelay).trace ≤ maxRetries := by
  obtain ⟨r, hr, hst⟩ := h500 0
  have h : (withRetry fn maxRetries baseDelay).trace = [Event.call 0] := by
    simp [withRetry, withRetryLoop, hr, hst]
  rw [h]
  exact ⟨rfl, hmax⟩

theorem withRetry_500_at_most_maxRetries_witness :
    attempts (withRetry (fun _ => Outcome.resolve (responseWith 500 [])) 3 1000).trace = 1 ∧
      attempts (withRetry (fun _ => Outcome.resolve (responseWith 500 [])) 3 1000).trace ≤ 3 :=
  withRetry_500_at_most_maxRetries (fun _ => Outcome.resolve (responseWith 500 [])) 3 1000
    (by decide) (fun _ => ⟨responseWith 500 [], rfl, rfl⟩)

/-- C8, as stated, fails: with `baseDelay = 1000`, after a second attempt answered by 429
with `Retry-After: 1` a third attempt is made, and the wait between the two is 1000 ms,
below `baseDelay × 2^(2-1) = 2000`. -/
theorem retry_after_wait_below_backoff :
    Event.call 2 ∈ (withRetry (fun _ => Outcome.resolve
        (responseWith 429 [("retry-after".toList, "1".toList)])) 3 1000).trace ∧
    waitAfter (withRetry (fun _ => Outcome.resolve
        (responseWith 429 [("retry-after".toList, "1".toList)])) 3 1000).trace 1
      = some (some 1000) ∧
    ¬ ((1000 : Int) * 2 ^ (2 - 1) ≤ 1000) := by
  decide

/-- C8, amended: whenever `withRetry` makes attempt `k + 1` (attempts counted from 1)
after attempt `k`, the wait between the two is `baseDelay × 2^(k-1)` when attempt `k`
threw or returned a response with no, or an empty, `Retry-After` header, and
`parseInt(header) × 1000` when the response carried a non-empty `Retry-After` header. -/
theorem wait_between_attempts (fn : Nat → Outcome) (maxRetries baseDelay k : Nat)
    (hk : 1 ≤ k) (hnext : Event.call k ∈ (withRetry fn maxRetries baseDelay).trace) :
    ((∃ e, fn (k - 1) = Outcome.reject e) →
      waitAfter (withRetry fn maxRetries baseDelay).trace (k - 1)
        = some (some ((baseDelay : Int) * 2 ^ (k - 1)))) ∧
    (∀ r, fn (k - 1) = Outcome.resolve r →
      (r.header "Retry-After".toList = none ∨ r.header "Retry-After".toList = some []) →
      waitAfter (withRetry fn maxRetries baseDelay).trace (k - 1)
        = some (some ((baseDelay : Int) * 2 ^ (k - 1)))) ∧
    (∀ r v, fn (k - 1) = Outcome.resolve r → r.header "Retry-After".toList = some v →
      v ≠ [] →
      waitAfter (withRetry fn maxRetries baseDelay).trace (k - 1)
        = some ((parseInt v).map fun n => n * 1000)) := by
  obtain ⟨i, rfl⟩ : ∃ i, k = i + 1 := ⟨k - 1, by omega⟩
  have h := (wait_of_next_call fn maxRetries baseDelay (maxRetries + 1) 0 i none
    (Nat.zero_le i) hnext).2
  simp only [Nat.add_sub_cancel]
  refine ⟨?_, ?_, ?_⟩
  · rintro ⟨e, he⟩
    rw [show (withRetry fn maxRetries baseDelay).trace
      = (withRetryLoop fn maxRetries baseDelay (maxRetries + 1) 0 none).trace from rfl, h]
    simp [retryDelay, he]
  · intro r hr hh
    rw [show (withRetry fn maxRetries baseDelay).trace
      = (withRetryLoop fn maxRetries baseDelay (maxRetries + 1) 0 none).trace from rfl, h]
    simp only [retryDelay, hr, rateLimitDelay_of_no_hint r baseDelay i hh]
  · intro r v hr hh hv
    rw [show (withRetry fn maxRetries baseDelay).trace
      = (withRetryLoop fn maxRetries baseDelay (maxRetries + 1) 0 none).trace from rfl, h]
    simp only [retryDelay, hr, rateLimitDelay_of_hint r baseDelay i v hh hv]

theorem wait_between_attempts_witness :
    Event.call 3 ∈ (withRetry (scripted []) 3 1000).trace ∧
    waitAfter (withRetry (scripted []) 3 1000).trace (3 - 1)
      = some (some ((1000 : Int) * 2 ^ (3 - 1))) :=
  ⟨by decide,
    (wait_between_attempts (scripted []) 3 1000 3 (by decide) (by decide)).1
      ⟨{ name := "TypeError".toList, status := none, message := [] }, rfl⟩⟩

/-- C9: when an attempt that `withRetry` makes returns status 429 with a `Retry-After`
header that `parseInt` reads as `n` seconds, and attempts remain, the next attempt is
made and the wait before it is `n × 1000` ms, whatever `baseDelay` and the attempt index
are. -/
theorem retry_after_header_sets_wait (fn : Nat → Outcome) (maxRetries baseDelay a : Nat)
    (r : Response) (v : List Char) (n : Int)
    (hmade : Event.call a ∈ (withRetry fn maxRetries baseDelay).trace)
    (hremain : a < maxRetries)
    (hfn : fn a = Outcome.resolve r) (h429 : r.status = 429)
    (hheader : r.header "Retry-After".toList = some v) (hn : parseInt v = some n) :
    Event.call (a + 1) ∈ (withRetry fn maxRetries baseDelay).trace ∧
      waitAfter (withRetry fn maxRetries baseDelay).trace a = some (some (n * 1000)) := by
  have hr : Retries fn maxRetries a := ⟨hremain, by simp [hfn, h429]⟩
  have h := next_call_of_retries fn maxRetries baseDelay (maxRetries + 1) 0 a none
    (by omega) hmade hr
  refine ⟨h.1, ?_⟩
  have hv : v ≠ [] := by
    rintro rfl
    simp [parseInt] at hn
  rw [show (withRetry fn maxRetries baseDelay).trace
    = (withRetryLoop fn maxRetries baseDelay (maxRetries + 1) 0 none).trace from rfl, h.2]
  simp only [retryDelay, hfn, rateLimitDelay_of_hint r baseDelay a v hheader hv, hn,
    Option.map_some']

theorem retry_after_header_sets_wait_witness :
    Event.call (2 + 1) ∈ (withRetry (fun _ => Outcome.resolve
        (responseWith 429 [("retry-after".toList, "2".toList)])) 3 5000).trace ∧
    waitAfter (withRetry (fun _ => Outcome.resolve
        (responseWith 429 [("retry-after".toList, "2".toList)])) 3 5000).trace 2
      = some (some (2 * 1000)) :=
  retry_after_header_sets_wait
    (fun _ => Outcome.resolve (responseWith 429 [("retry-after".toList, "2".toList)]))
    3 5000 2 (responseWith 429 [("retry-after".toList, "2".toList)]) "2".toList 2
    (by decide) (by decide) rfl rfl (by decide) (by decide)

/-- C10, evaluated on the code: with `maxRetries = 3` and attempts resolving with 503,
503, 503, 200, `withRetry` makes a single attempt and returns the first 503 response;
the same statuses delivered as rejections carrying `status: 503` are retried and the
fourth attempt's 200 response is returned. -/
theorem withRetry_503_response_not_retried (baseDelay : Nat) :
    withRetry (scripted [Outcome.resolve (responseWith 503 []),
        Outcome.resolve (responseWith 503 []), Outcome.resolve (responseWith 503 []),
        Outcome.resolve (responseWith 200 [])]) 3 baseDelay
      = { completion := Completion.returned (responseWith 503 []),
          trace := [Event.call 0] } ∧
    (withRetry (scripted [Outcome.reject { name := [], status := some 503, message := [] },
        Outcome.reject { name := [], status := some 503, message := [] },
        Outcome.reject { name := [], status := some 503, message := [] },
        Outcome.resolve (responseWith 200 [])]) 3 baseDelay).completion
      = Completion.returned (responseWith 200 []) ∧
    attempts (withRetry (scripted [Outcome.reject { name := [], status := some 503, message := [] },
        Outcome.reject { name := [], status := some 503, message := [] },
        Outcome.reject { name := [], status := some 503, message := [] },
        Outcome.resolve (responseWith 200 [])]) 3 baseDelay).trace = 4 := by
  refine ⟨rfl, rfl, rfl⟩

/-! ## Further lemmas on the retry loop -/

theorem withRetryLoop_stop (fn : Nat → Outcome) (m b fuel a : Nat) (le : Option JsError)
    (ha : a ≤ m) (hn : ¬ Retries fn m a) :
    withRetryLoop fn m b (fuel + 1) a le
      = { completion := completionOf (fn a), trace := [Event.call a] } := by
  simp only [withRetryLoop, if_pos ha]
  simp only [Retries] at hn
  cases hfn : fn a with
  | resolve result =>
    rw [hfn] at hn
    by_cases h429 : result.status = 429
    · have hlt : ¬ a < m := fun h => hn ⟨h, h429⟩
      simp [h429, hlt, completionOf]
    · simp [h429, completionOf]
  | reject error =>
    rw [hfn] at hn
    simp [hn, completionOf]

theorem last_attempt (fn : Nat → Outcome) (m b fuel a i : Nat) (le : Option JsError)
    (h : Event.call i ∈ (withRetryLoop fn m b fuel a le).trace) (hn : ¬ Retries fn m i) :
    (withRetryLoop fn m b fuel a le).completion = completionOf (fn i) ∧
      (withRetryLoop fn m b fuel a le).trace.getLast? = some (Event.call i) ∧
      attempts (withRetryLoop fn m b fuel a le).trace + a = i + 1 ∧
      waitAfter (withRetryLoop fn m b fuel a le).trace i = none := by
  induction fuel generalizing a le with
  | zero => simp [withRetryLoop] at h
  | succ fuel ih =>
    by_cases ha : a ≤ m
    · rcases withRetryLoop_cases fn m b fuel a le ha with ⟨hr, le', e⟩ | ⟨hna, _⟩
      · rw [e] at h ⊢
        simp only [RetryRun.after, List.cons_append, List.nil_append, List.mem_cons,
          Event.call.injEq, reduceCtorEq, false_or] at h ⊢
        rcases h with h | h
        · subst h; exact absurd hr hn
        · have hge := call_mem_ge fn m b fuel (a + 1) i le' h
          obtain ⟨h1, h2, h3, h4⟩ := ih (a + 1) le' h
          refine ⟨h1, ?_, ?_, ?_⟩
          · cases ht : (withRetryLoop fn m b fuel (a + 1) le').trace with
            | nil => rw [ht] at h; simp at h
            | cons x xs =>
              rw [ht] at h2
              simpa [List.getLast?_cons_cons] using h2
          · have e2 : attempts (Event.call a :: Event.sleep (retryDelay fn b a)
                :: (withRetryLoop fn m b fuel (a + 1) le').trace)
                = attempts (withRetryLoop fn m b fuel (a + 1) le').trace + 1 := by
              simp [attempts]
            rw [e2]
            omega
          · rw [waitAfter_skip _ _ _ _ (by omega)]
            exact h4
      · rw [withRetryLoop_stop fn m b fuel a le ha hna] at h ⊢
        simp at h
        subst h
        simp [attempts, waitAfter]
        omega
    · simp [withRetryLoop, ha] at h

theorem reaches_attempt (fn : Nat → Outcome) (m b i : Nat)
    (hi : i ≤ m) (hr : ∀ j, j < i → Retries fn m j) :
    Event.call i ∈ (withRetry fn m b).trace := by
  induction i with
  | zero => exact call_mem_self fn m b m 0 none (Nat.zero_le m)
  | succ i ih =>
    have hprev := ih (by omega) (fun j hj => hr j (by omega))
    exact (next_call_of_retries fn m b (m + 1) 0 i none (by omega) hprev (hr i (by omega))).1

theorem exists_last_attempt (fn : Nat → Outcome) (m b : Nat) :
    ∃ i, i ≤ m ∧ ¬ Retries fn m i ∧ (∀ j, j < i → Retries fn m j) ∧
      Event.call i ∈ (withRetry fn m b).trace := by
  classical
  have hex : ∃ i, ¬ Retries fn m i := ⟨m, fun h => Nat.lt_irrefl m h.1⟩
  refine ⟨Nat.find hex, ?_, Nat.find_spec hex, ?_, ?_⟩
  · exact Nat.find_min' hex (fun h => Nat.lt_irrefl m h.1)
  · intro j hj
    exact not_not.1 (Nat.find_min hex hj)
  · apply reaches_attempt
    · exact Nat.find_min' hex (fun h => Nat.lt_irrefl m h.1)
    · intro j hj
      exact not_not.1 (Nat.find_min hex hj)

theorem withRetry_completion (fn : Nat → Outcome) (m b : Nat) :
    ∃ i, i ≤ m ∧ ¬ Retries fn m i ∧
      (withRetry fn m b).completion = completionOf (fn i) ∧
      (withRetry fn m b).trace.getLast? = some (Event.call i) ∧
      attempts (withRetry fn m b).trace = i + 1 ∧
      waitAfter (withRetry fn m b).trace i = none := by
  obtain ⟨i, hi, hn, _, hmem⟩ := exists_last_attempt fn m b
  obtain ⟨h1, h2, h3, h4⟩ := last_attempt fn m b (m + 1) 0 i none hmem hn
  exact ⟨i, hi, hn, h1, h2, by simpa using h3, h4⟩

theorem not_retries_of_abort (fn : Nat → Outcome) (m a : Nat) (e : JsError)
    (hfn : fn a = Outcome.reject e) (hname : e.name = "AbortError".toList)
    (hstatus : e.status = none) : ¬ Retries fn m a := by
  intro h
  have h2 : isRetryableError e = true := by simpa [hfn] using h.2
  have h3 : isRetryableError e = false := by
    simp [isRetryableError, hname, hstatus]
  rw [h3] at h2
  exact Bool.noConfusion h2

/-! ## Claims on the transport client -/

/-- C11: for a 401 response whose body is
`\x7b"error":\x7b"message":"invalid key","code":"invalid_api_key"\x7d\x7d`,
`createChatCompletion` makes exactly one attempt, without a wait, and throws an
`APIError` with message `invalid key`, code `invalid_api_key` and status code 401. -/
theorem invalid_key_surfaces_at_once (truthyNumber : List Char → Bool)
    (toText : JSON → List Nat) (rateLimitInfo : RateLimitInfo) (fetch : Nat → Outcome)
    (response : Response) (hfetch : fetch 0 = Outcome.resolve response)
    (hstatus : response.status = 401) (hbody : response.body = invalidKeyResponse.body) :
    (createChatCompletion jsonParse truthyNumber toText rateLimitInfo fetch).trace
        = [Event.call 0] ∧
    ∃ e, (createChatCompletion jsonParse truthyNumber toText rateLimitInfo fetch).result
          = Except.error (Thrown.api e) ∧
      e.message = utf16Text "invalid key".toList ∧
      e.code = JSON.str (utf16Text "invalid_api_key".toList) ∧
      e.statusCode = some 401 := by
  have hrun : makeRequest fetch
      = { completion := Completion.returned response, trace := [Event.call 0] } := by
    simp [makeRequest, withRetry, withRetryLoop, hfetch, hstatus]
  have hok : response.ok = false := by simp [Response.ok, hstatus]
  simp only [createChatCompletion, hrun, hok]
  refine ⟨rfl, _, rfl, ?_, ?_, ?_⟩
  · simp only [errorFromResponse, hbody]; rfl
  · simp only [errorFromResponse, hbody]; rfl
  · simp only [errorFromResponse, hstatus]

theorem invalid_key_surfaces_at_once_witness :
    (createChatCompletion jsonParse (fun _ => true) (fun _ => []) initialRateLimitInfo
        (fun _ => Outcome.resolve invalidKeyResponse)).trace = [Event.call 0] ∧
    ∃ e, (createChatCompletion jsonParse (fun _ => true) (fun _ => []) initialRateLimitInfo
          (fun _ => Outcome.resolve invalidKeyResponse)).result
          = Except.error (Thrown.api e) ∧
      e.message = utf16Text "invalid key".toList ∧
      e.code = JSON.str (utf16Text "invalid_api_key".toList) ∧
      e.statusCode = some 401 :=
  invalid_key_surfaces_at_once (fun _ => true) (fun _ => []) initialRateLimitInfo
    (fun _ => Outcome.resolve invalidKeyResponse) invalidKeyResponse rfl rfl rfl

/-- C12: for every `maxRetries`, when every attempt returns status 429, `withRetry` makes
all `maxRetries + 1` attempts and then returns the response of the last attempt itself
instead of throwing. -/
theorem rate_limited_returns_last_response (fn : Nat → Outcome) (maxRetries baseDelay : Nat)
    (h429 : ∀ k, ∃ r, fn k = Outcome.resolve r ∧ r.status = 429) :
    (∀ i, i ≤ maxRetries → Event.call i ∈ (withRetry fn maxRetries baseDelay).trace) ∧
    attempts (withRetry fn maxRetries baseDelay).trace = maxRetries + 1 ∧
    (withRetry fn maxRetries baseDelay).trace.getLast? = some (Event.call maxRetries) ∧
    ∃ r, fn maxRetries = Outcome.resolve r ∧ r.status = 429 ∧
      (withRetry fn maxRetries baseDelay).completion = Completion.returned r := by
  have hr : ∀ j, j < maxRetries → Retries fn maxRetries j := by
    intro j hj
    obtain ⟨r, hfn, hst⟩ := h429 j
    exact ⟨hj, by simp [hfn, hst]⟩
  have hreach : ∀ i, i ≤ maxRetries →
      Event.call i ∈ (withRetry fn maxRetries baseDelay).trace :=
    fun i hi => reaches_attempt fn maxRetries baseDelay i hi (fun j hj => hr j (by omega))
  have hn : ¬ Retries fn maxRetries maxRetries := fun h => Nat.lt_irrefl _ h.1
  obtain ⟨h1, h2, h3, _⟩ := last_attempt fn maxRetries baseDelay (maxRetries + 1) 0
    maxRetries none (hreach maxRetries (Nat.le_refl _)) hn
  obtain ⟨r, hfn, hst⟩ := h429 maxRetries
  refine ⟨hreach, by simpa using h3, h2, r, hfn, hst, ?_⟩
  rw [show (withRetry fn maxRetries baseDelay).completion
    = (withRetryLoop fn maxRetries baseDelay (maxRetries + 1) 0 none).completion from rfl,
    h1, hfn]
  rfl

theorem rate_limited_returns_last_response_witness :
    attempts (withRetry (fun _ => Outcome.resolve (responseWith 429 [])) 2 1000).trace = 2 + 1 ∧
    (withRetry (fun _ => Outcome.resolve (responseWith 429 [])) 2 1000).completion
      = Completion.returned (responseWith 429 []) :=
  ⟨(rate_limited_returns_last_response (fun _ => Outcome.resolve (responseWith 429 [])) 2 1000
      (fun _ => ⟨responseWith 429 [], rfl, rfl⟩)).2.1,
    by decide⟩

/-- C13: when an attempt that `withRetry` makes returns a response whose status is 2xx, or
4xx other than 429, `withRetry` returns that very response; that attempt is the last
step of the run, so no call and no wait follow it, and a run that succeeds at attempt
index `a` costs exactly `a + 1` calls (one call for a first-attempt success). -/
theorem response_returned_at_once (fn : Nat → Outcome) (maxRetries baseDelay a : Nat)
    (r : Response) (hmade : Event.call a ∈ (withRetry fn maxRetries baseDelay).trace)
    (hfn : fn a = Outcome.resolve r)
    (hstatus : (200 ≤ r.status ∧ r.status ≤ 299) ∨
      (400 ≤ r.status ∧ r.status ≤ 499 ∧ r.status ≠ 429)) :
    (withRetry fn maxRetries baseDelay).completion = Completion.returned r ∧
    (withRetry fn maxRetries baseDelay).trace.getLast? = some (Event.call a) ∧
    attempts (withRetry fn maxRetries baseDelay).trace = a + 1 ∧
    waitAfter (withRetry fn maxRetries baseDelay).trace a = none ∧
    Event.call (a + 1) ∉ (withRetry fn maxRetries baseDelay).trace := by
  have hne : r.status ≠ 429 := by omega
  have hn : ¬ Retries fn maxRetries a := by
    intro h
    have h2 := h.2
    rw [hfn] at h2
    exact hne h2
  obtain ⟨h1, h2, h3, h4⟩ := last_attempt fn maxRetries baseDelay (maxRetries + 1) 0 a none
    hmade hn
  refine ⟨?_, h2, by simpa using h3, h4, ?_⟩
  · rw [show (withRetry fn maxRetries baseDelay).completion
      = (withRetryLoop fn maxRetries baseDelay (maxRetries + 1) 0 none).completion from rfl,
      h1, hfn]
    rfl
  · intro hnext
    exact hn (wait_of_next_call fn maxRetries baseDelay (maxRetries + 1) 0 a none
      (Nat.zero_le a) hnext).1

theorem response_returned_at_once_witness :
    (withRetry (scripted [Outcome.resolve (responseWith 429 []),
        Outcome.resolve (responseWith 404 [])]) 3 1000).completion
      = Completion.returned (responseWith 404 []) ∧
    attempts (withRetry (scripted [Outcome.resolve (responseWith 429 []),
        Outcome.resolve (responseWith 404 [])]) 3 1000).trace = 1 + 1 :=
  ⟨(response_returned_at_once (scripted [Outcome.resolve (responseWith 429 []),
        Outcome.resolve (responseWith 404 [])]) 3 1000 1 (responseWith 404 [])
      (by decide) rfl (Or.inr (by decide))).1,
    by decide⟩

theorem makeRequest_never_throws_undefined (fetch : Nat → Outcome) :
    (makeRequest fetch).completion ≠ Completion.thrown none := by
  obtain ⟨i, _, _, h, _⟩ := withRetry_completion fetch 3 1000
  rw [makeRequest, h]
  cases fetch i <;> simp [completionOf]

/-- C14: when an attempt that `withRetry` makes rejects with a cancellation, an error
named `AbortError` (which carries no `status`), that attempt is the last step of the run
(no further attempt, no wait) and `withRetry` throws that same error; and
`createChatCompletionStream` rethrows it as it is, while every other value it throws is
an `APIError`, so the cancellation stays distinguishable. -/
theorem abort_error_propagates (fn : Nat → Outcome) (maxRetries baseDelay a : Nat)
    (e : JsError) (hfn : fn a = Outcome.reject e) (hname : e.name = "AbortError".toList)
    (hstatus : e.status = none) :
    (Event.call a ∈ (withRetry fn maxRetries baseDelay).trace →
      (withRetry fn maxRetries baseDelay).completion = Completion.thrown (some e) ∧
      (withRetry fn maxRetries baseDelay).trace.getLast? = some (Event.call a) ∧
      attempts (withRetry fn maxRetries baseDelay).trace = a + 1 ∧
      waitAfter (withRetry fn maxRetries baseDelay).trace a = none) ∧
    (∀ (parse : List Char → Option JSON) (truthyNumber : List Char → Bool)
        (toText : JSON → List Nat) (rateLimitInfo : RateLimitInfo),
      Event.call a ∈ (makeRequest fn).trace →
      (createChatCompletionStream parse truthyNumber toText rateLimitInfo fn).result
          = Except.error (Thrown.other e) ∧
      attempts (createChatCompletionStream parse truthyNumber toText rateLimitInfo fn).trace
          = a + 1) ∧
    (∀ (parse : List Char → Option JSON) (truthyNumber : List Char → Bool)
        (toText : JSON → List Nat) (rateLimitInfo : RateLimitInfo) (t : Thrown),
      (createChatCompletionStream parse truthyNumber toText rateLimitInfo fn).result
          = Except.error t →
      (∃ apiError, t = Thrown.api apiError) ∨
        (∃ e', t = Thrown.other e' ∧ e'.name = "AbortError".toList)) := by
  have hn : ∀ m, ¬ Retries fn m a := fun m => not_retries_of_abort fn m a e hfn hname hstatus
  have hrun : ∀ m b, Event.call a ∈ (withRetry fn m b).trace →
      (withRetry fn m b).completion = Completion.thrown (some e) ∧
      (withRetry fn m b).trace.getLast? = some (Event.call a) ∧
      attempts (withRetry fn m b).trace = a + 1 ∧
      waitAfter (withRetry fn m b).trace a = none := by
    intro m b hmade
    obtain ⟨h1, h2, h3, h4⟩ := last_attempt fn m b (m + 1) 0 a none hmade (hn m)
    refine ⟨?_, h2, by simpa using h3, h4⟩
    rw [show (withRetry fn m b).completion
      = (withRetryLoop fn m b (m + 1) 0 none).completion from rfl, h1, hfn]
    rfl
  refine ⟨hrun maxRetries baseDelay, ?_, ?_⟩
  · intro parse truthyNumber toText rateLimitInfo hmade
    obtain ⟨h1, _, h3, _⟩ := hrun 3 1000 hmade
    have h1' : (makeRequest fn).completion = Completion.thrown (some e) := h1
    constructor
    · simp only [createChatCompletionStream, h1', hname, if_true]
    · simp only [createChatCompletionStream, h1', hname, if_true]
      exact h3
  · intro parse truthyNumber toText rateLimitInfo t ht
    have hu := makeRequest_never_throws_undefined fn
    simp only [createChatCompletionStream] at ht
    cases hc : (makeRequest fn).completion with
    | returned response =>
      rw [hc] at ht
      by_cases hok : response.ok = true
      · simp [hok] at ht
      · simp only [hok] at ht
        simp at ht
        exact Or.inl ⟨_, ht.symm⟩
    | thrown le =>
      cases le with
      | none => exact absurd hc hu
      | some e' =>
        rw [hc] at ht
        by_cases hab : e'.name = "AbortError".toList
        · simp only [hab, if_true] at ht
          simp at ht
          exact Or.inr ⟨e', ht.symm, hab⟩
        · simp only [hab, if_false] at ht
          simp at ht
          exact Or.inl ⟨_, ht.symm⟩

theorem abort_error_propagates_witness :
    (withRetry (scripted [Outcome.reject
          { name := "TypeError".toList, status := none, message := [] },
        Outcome.reject { name := "AbortError".toList, status := none, message := [] }])
        3 1000).completion
      = Completion.thrown (some { name := "AbortError".toList, status := none, message := [] }) ∧
    attempts (withRetry (scripted [Outcome.reject
          { name := "TypeError".toList, status := none, message := [] },
        Outcome.reject { name := "AbortError".toList, status := none, message := [] }])
        3 1000).trace = 1 + 1 ∧
    (createChatCompletionStream jsonParse (fun _ => true) (fun _ => []) initialRateLimitInfo
        (scripted [Outcome.reject
          { name := "TypeError".toList, status := none, message := [] },
        Outcome.reject { name := "AbortError".toList, status := none, message := [] }])).result
      = Except.error
          (Thrown.other { name := "AbortError".toList, status := none, message := [] }) :=
  ⟨((abort_error_propagates _ 3 1000 1
        { name := "AbortError".toList, status := none, message := [] } rfl rfl rfl).1
      (by decide)).1,
    ((abort_error_propagates _ 3 1000 1
        { name := "AbortError".toList, status := none, message := [] } rfl rfl rfl).1
      (by decide)).2.2.1,
    ((abort_error_propagates _ 3 1000 1
        { name := "AbortError".toList, status := none, message := [] } rfl rfl rfl).2.1
      jsonParse (fun _ => true) (fun _ => []) initialRateLimitInfo (by decide)).1⟩

/-- C15: whenever `withRetry` throws, the value thrown is the error raised by the last
attempt it made: that attempt is the last step of the run (no wait, no further attempt
after it), and its error was not retryable or the attempts were exhausted. -/
theorem thrown_error_is_from_last_attempt (fn : Nat → Outcome) (maxRetries baseDelay : Nat)
    (x : Option JsError)
    (hthrown : (withRetry fn maxRetries baseDelay).completion = Completion.thrown x) :
    ∃ i e, x = some e ∧ fn i = Outcome.reject e ∧
      (withRetry fn maxRetries baseDelay).trace.getLast? = some (Event.call i) ∧
      attempts (withRetry fn maxRetries baseDelay).trace = i + 1 ∧
      waitAfter (withRetry fn maxRetries baseDelay).trace i = none ∧
      (isRetryableError e = false ∨ i = maxRetries) := by
  obtain ⟨i, hi, hn, h1, h2, h3, h4⟩ := withRetry_completion fn maxRetries baseDelay
  rw [h1] at hthrown
  cases hfn : fn i with
  | resolve r => rw [hfn] at hthrown; simp [completionOf] at hthrown
  | reject e =>
    rw [hfn] at hthrown
    simp only [completionOf, Completion.thrown.injEq] at hthrown
    refine ⟨i, e, hthrown.symm, hfn, h2, h3, h4, ?_⟩
    by_cases hre : isRetryableError e = true
    · right
      by_contra hne
      exact hn ⟨by omega, by simp [hfn, hre]⟩
    · left
      simpa using hre

theorem thrown_error_is_from_last_attempt_witness :
    ∃ i e, some ({ name := [], status := some 400, message := [] } : JsError) = some e ∧
      scripted [Outcome.reject { name := "TypeError".toList, status := none, message := [] },
        Outcome.reject { name := [], status := some 400, message := [] }] i
        = Outcome.reject e ∧
      (withRetry (scripted [Outcome.reject
            { name := "TypeError".toList, status := none, message := [] },
          Outcome.reject { name := [], status := some 400, message := [] }])
          3 1000).trace.getLast? = some (Event.call i) ∧
      attempts (withRetry (scripted [Outcome.reject
            { name := "TypeError".toList, status := none, message := [] },
          Outcome.reject { name := [], status := some 400, message := [] }])
          3 1000).trace = i + 1 ∧
      waitAfter (withRetry (scripted [Outcome.reject
            { name := "TypeError".toList, status := none, message := [] },
          Outcome.reject { name := [], status := some 400, message := [] }])
          3 1000).trace i = none ∧
      (isRetryableError e = false ∨ i = 3) :=
  thrown_error_is_from_last_attempt _ 3 1000 _ (by decide)

theorem errorField_null (key : String) : errorField JSON.null key = none := rfl

theorem remainingCount_missing (headers : List (List Char × List Char)) (name : List Char)
    (h : headersGet headers name = none) : remainingCount headers name = 0 := by
  unfold remainingCount
  rw [h]
  rfl

theorem remainingCount_present (headers : List (List Char × List Char)) (name v : List Char)
    (n : Int) (h : headersGet headers name = some v) (hn : parseInt v = some n) :
    remainingCount headers name = toNumber n := by
  unfold remainingCount
  rw [h]
  simp [hn]

theorem toNumber_of_safe (n : Int) (h : n.natAbs ≤ 2 ^ 53) :
    toNumber n = JsNumber.finite n := by
  have hlt : n.natAbs < (2 ^ 256) ^ 4 :=
    lt_of_le_of_lt h (by norm_num)
  unfold toNumber roundToDouble
  simp only [if_pos h, if_pos hlt]
  congr 1
  split <;> omega

theorem remainingCount_safe (headers : List (List Char × List Char)) (name v : List Char)
    (n : Int) (h : headersGet headers name = some v) (hn : parseInt v = some n)
    (hsafe : n.natAbs ≤ 2 ^ 53) :
    remainingCount headers name = JsNumber.finite n := by
  rw [remainingCount_present headers name v n h hn, toNumber_of_safe n hsafe]

/-- C16: for every response handed to the shared error branch, the `APIError` built has
the response status as status code; when the body is absent or not valid JSON, or the
parsed body has no `error.message`, its message is `HTTP <status>: <statusText>`; when
the body is absent or not valid JSON, or has no `error.code`, its code is `API_ERROR`;
and every operation with this branch throws exactly this error for a non-ok response. -/
theorem error_body_fallback (parse : List Char → Option JSON)
    (truthyNumber : List Char → Bool) (toText : JSON → List Nat) (response : Response) :
    (errorFromResponse parse truthyNumber toText response).statusCode = some response.status ∧
    (parse response.body = none →
      (errorFromResponse parse truthyNumber toText response).message = statusLine response ∧
      (errorFromResponse parse truthyNumber toText response).code
        = JSON.str (utf16Text "API_ERROR".toList)) ∧
    (errorField ((parse response.body).getD JSON.null) "message" = none →
      (errorFromResponse parse truthyNumber toText response).message = statusLine response) ∧
    (errorField ((parse response.body).getD JSON.null) "code" = none →
      (errorFromResponse parse truthyNumber toText response).code
        = JSON.str (utf16Text "API_ERROR".toList)) ∧
    (∀ (rateLimitInfo : RateLimitInfo) (fetch : Nat → Outcome),
      (makeRequest fetch).completion = Completion.returned response → response.ok = false →
      (createChatCompletion parse truthyNumber toText rateLimitInfo fetch).result
        = Except.error (Thrown.api (errorFromResponse parse truthyNumber toText response)) ∧
      (createChatCompletionStream parse truthyNumber toText rateLimitInfo fetch).result
        = Except.error (Thrown.api (errorFromResponse parse truthyNumber toText response)) ∧
      (createEmbedding parse truthyNumber toText rateLimitInfo fetch).result
        = Except.error (Thrown.api (errorFromResponse parse truthyNumber toText response)) ∧
      (transcribeAudio parse truthyNumber toText rateLimitInfo fetch).result
        = Except.error (Thrown.api (errorFromResponse parse truthyNumber toText response)) ∧
      (generateSpeech parse truthyNumber toText rateLimitInfo fetch).result
        = Except.error (Thrown.api (errorFromResponse parse truthyNumber toText response)) ∧
      (moderateContent parse truthyNumber toText rateLimitInfo fetch).result
        = Except.error (Thrown.api (errorFromResponse parse truthyNumber toText response))) := by
  refine ⟨rfl, ?_, ?_, ?_, ?_⟩
  · intro h
    constructor
    · simp only [errorFromResponse, h, Option.getD_none, errorField_null, orElse, contentText]
    · simp only [errorFromResponse, h, Option.getD_none, errorField_null, orElse]
  · intro h
    simp only [errorFromResponse, h, orElse, contentText]
  · intro h
    simp only [errorFromResponse, h, orElse]
  · intro rateLimitInfo fetch hc hok
    simp only [createChatCompletion, createChatCompletionStream, createEmbedding,
      transcribeAudio, generateSpeech, moderateContent, hc, hok]
    simp

theorem error_body_fallback_witness :
    (errorFromResponse jsonParse (fun _ => true) (fun _ => [])
        { status := 502, statusText := "Bad Gateway".toList, headers := [],
          body := "<html>".toList }).message
      = utf16Text "HTTP 502: Bad Gateway".toList ∧
    (errorFromResponse jsonParse (fun _ => true) (fun _ => [])
        { status := 502, statusText := "Bad Gateway".toList, headers := [],
          body := "<html>".toList }).code
      = JSON.str (utf16Text "API_ERROR".toList) :=
  (error_body_fallback jsonParse (fun _ => true) (fun _ => [])
    { status := 502, statusText := "Bad Gateway".toList, headers := [],
      body := "<html>".toList }).2.1 (by rfl)

/-- C17, amended: `updateRateLimitInfo` is total and builds the snapshot from the headers
alone: a missing remaining-requests or remaining-tokens header gives 0, a missing reset
header gives `null`, a present counter header that `parseInt` reads as the integer `n`
gives `n` when `|n| ≤ 2 ^ 53` and in every case the Number nearest to `n`, and a present,
non-empty reset header gives its text; a successful `createChatCompletion` installs this
snapshot whatever the previous one was. -/
theorem updateRateLimitInfo_fields (headers : List (List Char × List Char)) :
    (headersGet headers "x-ratelimit-remaining-requests".toList = none →
      (updateRateLimitInfo headers).requests = 0) ∧
    (headersGet headers "x-ratelimit-remaining-tokens".toList = none →
      (updateRateLimitInfo headers).tokens = 0) ∧
    (headersGet headers "x-ratelimit-reset-requests".toList = none →
      (updateRateLimitInfo headers).resetTime = none) ∧
    (∀ v n, headersGet headers "x-ratelimit-remaining-requests".toList = some v →
      parseInt v = some n → n.natAbs ≤ 2 ^ 53 →
      (updateRateLimitInfo headers).requests = JsNumber.finite n) ∧
    (∀ v n, headersGet headers "x-ratelimit-remaining-tokens".toList = some v →
      parseInt v = some n → n.natAbs ≤ 2 ^ 53 →
      (updateRateLimitInfo headers).tokens = JsNumber.finite n) ∧
    (∀ v n, headersGet headers "x-ratelimit-remaining-requests".toList = some v →
      parseInt v = some n → (updateRateLimitInfo headers).requests = toNumber n) ∧
    (∀ v n, headersGet headers "x-ratelimit-remaining-tokens".toList = some v →
      parseInt v = some n → (updateRateLimitInfo headers).tokens = toNumber n) ∧
    (∀ v, headersGet headers "x-ratelimit-reset-requests".toList = some v → v ≠ [] →
      (updateRateLimitInfo headers).resetTime = some v) ∧
    (∀ (parse : List Char → Option JSON) (truthyNumber : List Char → Bool)
        (toText : JSON → List Nat) (previous : RateLimitInfo) (response : Response)
        (data : JSON),
      response.ok = true → response.headers = headers → parse response.body = some data →
      (createChatCompletion parse truthyNumber toText previous
          (fun _ => Outcome.resolve response)).rateLimitInfo
        = updateRateLimitInfo headers) := by
  refine ⟨?_, ?_, ?_, ?_, ?_, ?_, ?_, ?_, ?_⟩
  · exact remainingCount_missing headers _
  · exact remainingCount_missing headers _
  · intro h
    unfold updateRateLimitInfo
    rw [h]
  · exact fun v n h hn hsafe => remainingCount_safe headers _ v n h hn hsafe
  · exact fun v n h hn hsafe => remainingCount_safe headers _ v n h hn hsafe
  · exact fun v n h hn => remainingCount_present headers _ v n h hn
  · exact fun v n h hn => remainingCount_present headers _ v n h hn
  · intro v h hv
    unfold updateRateLimitInfo
    rw [h]
    simp [hv]
  · intro parse truthyNumber toText previous response data hok hh hp
    have hne : response.status ≠ 429 := by
      simp only [Response.ok, Bool.and_eq_true, decide_eq_true_eq] at hok
      omega
    have hrun : makeRequest (fun _ => Outcome.resolve response)
        = { completion := Completion.returned response, trace := [Event.call 0] } := by
      simp [makeRequest, withRetry, withRetryLoop, hne]
    simp only [createChatCompletion, hrun, hok, hp, hh, if_true]

theorem updateRateLimitInfo_fields_witness :
    (updateRateLimitInfo [("x-ratelimit-remaining-requests".toList, "42".toList)]).requests
      = 42 ∧
    (updateRateLimitInfo [("x-ratelimit-remaining-requests".toList, "42".toList)]).tokens
      = 0 ∧
    (updateRateLimitInfo [("x-ratelimit-remaining-requests".toList, "42".toList)]).resetTime
      = none :=
  ⟨(updateRateLimitInfo_fields
      [("x-ratelimit-remaining-requests".toList, "42".toList)]).2.2.2.1
      "42".toList 42 (by decide) (by decide) (by decide),
    (updateRateLimitInfo_fields
      [("x-ratelimit-remaining-requests".toList, "42".toList)]).2.1 (by decide),
    (updateRateLimitInfo_fields
      [("x-ratelimit-remaining-requests".toList, "42".toList)]).2.2.1 (by decide)⟩

/-- C17, as stated, fails: the header `x-ratelimit-remaining-requests: 9007199254740993`
carries the integer `2 ^ 53 + 1`, which `parseInt` reads, and the field stored is the
Number `9007199254740992`. -/
theorem large_header_is_rounded :
    headersGet [("x-ratelimit-remaining-requests".toList, "9007199254740993".toList)]
        "x-ratelimit-remaining-requests".toList = some "9007199254740993".toList ∧
    parseInt "9007199254740993".toList = some 9007199254740993 ∧
    (updateRateLimitInfo
        [("x-ratelimit-remaining-requests".toList, "9007199254740993".toList)]).requests
      = JsNumber.finite 9007199254740992 ∧
    (updateRateLimitInfo
        [("x-ratelimit-remaining-requests".toList, "9007199254740993".toList)]).requests
      ≠ JsNumber.finite 9007199254740993 := by
  refine ⟨by decide, by decide, by decide, by decide⟩

/-- C18, evaluated on the code: `getModels` never changes the rate-limit snapshot.  After
an ok response carrying `x-ratelimit-remaining-requests: 5` and
`x-ratelimit-remaining-tokens: 900` it returns its result and leaves the initial snapshot,
which differs from the one derived from the headers, while `createChatCompletion` on the
same response installs the derived snapshot. -/
theorem getModels_leaves_snapshot :
    (∀ (parse : List Char → Option JSON) (rateLimitInfo : RateLimitInfo)
        (fetch : Nat → Outcome),
      getRateLimitInfo (getModels parse rateLimitInfo fetch).rateLimitInfo = rateLimitInfo) ∧
    (getModels jsonParse initialRateLimitInfo
        (fun _ => Outcome.resolve modelsResponse)).result = Except.ok (some (JSON.arr [])) ∧
    getRateLimitInfo (getModels jsonParse initialRateLimitInfo
        (fun _ => Outcome.resolve modelsResponse)).rateLimitInfo
      = { requests := 0, tokens := 0, resetTime := none } ∧
    updateRateLimitInfo modelsResponse.headers
      = { requests := 5, tokens := 900, resetTime := none } ∧
    getRateLimitInfo (createChatCompletion jsonParse (fun _ => true) (fun _ => [])
        initialRateLimitInfo (fun _ => Outcome.resolve modelsResponse)).rateLimitInfo
      = { requests := 5, tokens := 900, resetTime := none } := by
  refine ⟨?_, rfl, rfl, by decide, rfl⟩
  intro parse rateLimitInfo fetch
  simp only [getModels, getRateLimitInfo]
  cases (makeRequest fetch).completion with
  | returned response =>
    by_cases hok : response.ok = true
    · simp only [hok, if_true]
      cases hp : parse response.body with
      | none => rfl
      | some data => cases data <;> rfl
    · simp only [hok]
      rfl
  | thrown le => cases le <;> rfl

/-! ## Lemmas on the generator -/

theorem after_trace {α : Type} (events : List (StreamEvent α)) (run : StreamRun α) :
    (StreamRun.after events run).trace = events ++ run.trace := rfl

theorem yieldLines_nil {α : Type} (parse : List Char → Option α) (aborted : Nat → Bool)
    (k : Nat) (next : Nat → StreamRun α) : yieldLines parse aborted [] k next = next k := rfl

theorem yieldLines_skip {α : Type} (parse : List Char → Option α) (aborted : Nat → Bool)
    (line : List Char) (rest : List (List Char)) (k : Nat) (next : Nat → StreamRun α)
    (hp : processLine parse line = none) :
    yieldLines parse aborted (line :: rest) k next = yieldLines parse aborted rest k next := by
  simp only [yieldLines, hp]

theorem yieldLines_leave {α : Type} (parse : List Char → Option α) (aborted : Nat → Bool)
    (line : List Char) (rest : List (List Char)) (k : Nat) (next : Nat → StreamRun α)
    (chunk : α) (hp : processLine parse line = some chunk) (hab : aborted k = true) :
    yieldLines parse aborted (line :: rest) k next
      = { trace := [StreamEvent.yielded chunk], exit := StreamExit.consumerLeft } := by
  simp only [yieldLines, hp, hab, if_true]

theorem yieldLines_go_on {α : Type} (parse : List Char → Option α) (aborted : Nat → Bool)
    (line : List Char) (rest : List (List Char)) (k : Nat) (next : Nat → StreamRun α)
    (chunk : α) (hp : processLine parse line = some chunk) (hab : aborted k = false) :
    (yieldLines parse aborted (line :: rest) k next).trace
      = StreamEvent.yielded chunk :: (yieldLines parse aborted rest (k + 1) next).trace := by
  simp only [yieldLines, hp, hab, Bool.false_eq_true, if_false]
  rfl

theorem readLoop_cons_trace {σ α : Type} (decode : σ → List Nat → σ × List Char)
    (parse : List Char → Option α) (aborted : Nat → Bool) (ending : StreamEnding)
    (st : ReaderState σ) (value : List Nat) (rest : List (List Nat)) (k : Nat) :
    (readLoop decode parse aborted ending st (value :: rest) k).trace
      = StreamEvent.read ::
        (yieldLines parse aborted (split (st.buffer ++ (decode st.decoder value).2)).dropLast k
          fun k' => readLoop decode parse aborted ending
            (readStep decode parse st value).1 rest k').trace := rfl

theorem readLoop_nil_trace {σ α : Type} (decode : σ → List Nat → σ × List Char)
    (parse : List Char → Option α) (aborted : Nat → Bool) (ending : StreamEnding)
    (st : ReaderState σ) (k : Nat) :
    (readLoop decode parse aborted ending st [] k : StreamRun α).trace = [StreamEvent.read] := by
  cases ending <;> rfl

theorem yieldLines_no_release {α : Type} (parse : List Char → Option α)
    (aborted : Nat → Bool) (lines : List (List Char)) (k : Nat) (next : Nat → StreamRun α)
    (hnext : ∀ k', ∀ ev ∈ (next k').trace, ev.isRelease = false) :
    ∀ ev ∈ (yieldLines parse aborted lines k next).trace, ev.isRelease = false := by
  induction lines generalizing k with
  | nil => exact hnext k
  | cons line rest ih =>
    cases hp : processLine parse line with
    | none => rw [yieldLines_skip parse aborted line rest k next hp]; exact ih k
    | some chunk =>
      cases hab : aborted k with
      | true =>
        rw [yieldLines_leave parse aborted line rest k next chunk hp hab]
        intro ev hev
        simp only [List.mem_singleton] at hev
        rw [hev]; rfl
      | false =>
        rw [yieldLines_go_on parse aborted line rest k next chunk hp hab]
        intro ev hev
        rcases List.mem_cons.1 hev with h | h
        · rw [h]; rfl
        · exact ih (k + 1) ev h

theorem readLoop_no_release {σ α : Type} (decode : σ → List Nat → σ × List Char)
    (parse : List Char → Option α) (aborted : Nat → Bool) (ending : StreamEnding)
    (st : ReaderState σ) (reads : List (List Nat)) (k : Nat) :
    ∀ ev ∈ (readLoop decode parse aborted ending st reads k).trace, ev.isRelease = false := by
  induction reads generalizing st k with
  | nil =>
    rw [readLoop_nil_trace]
    intro ev hev
    simp only [List.mem_singleton] at hev
    rw [hev]; rfl
  | cons value rest ih =>
    rw [readLoop_cons_trace]
    intro ev hev
    rcases List.mem_cons.1 hev with h | h
    · rw [h]; rfl
    · exact yieldLines_no_release parse aborted _ k _ (fun k' => ih _ k') ev h

theorem countP_release_eq_zero {α : Type} (t : List (StreamEvent α))
    (h : ∀ ev ∈ t, ev.isRelease = false) : t.countP StreamEvent.isRelease = 0 := by
  rw [List.countP_eq_zero]
  intro ev hev
  simp [h ev hev]

theorem stepsAfterCancel_append_release {α : Type} (aborted : Nat → Bool)
    (t : List (StreamEvent α)) (k : Nat) :
    stepsAfterCancel aborted (t ++ [StreamEvent.releaseLock]) k
      = (stepsAfterCancel aborted t k).map fun rest => rest ++ [StreamEvent.releaseLock] := by
  induction t generalizing k with
  | nil => rfl
  | cons ev rest ih =>
    cases ev with
    | yielded chunk =>
      show (if aborted k = true then some (rest ++ [StreamEvent.releaseLock])
        else stepsAfterCancel aborted (rest ++ [StreamEvent.releaseLock]) (k + 1))
        = Option.map _ (if aborted k = true then some rest
            else stepsAfterCancel aborted rest (k + 1))
      cases aborted k with
      | true => rfl
      | false => exact ih (k + 1)
    | getReader => exact ih k
    | read => exact ih k
    | releaseLock => exact ih k

theorem yieldLines_after_cancel {α : Type} (parse : List Char → Option α)
    (aborted : Nat → Bool) (lines : List (List Char)) (k : Nat) (next : Nat → StreamRun α)
    (hnext : ∀ k' r, stepsAfterCancel aborted (next k').trace k' = some r → r = [])
    (rest : List (StreamEvent α))
    (h : stepsAfterCancel aborted (yieldLines parse aborted lines k next).trace k = some rest) :
    rest = [] := by
  induction lines generalizing k with
  | nil => exact hnext k rest h
  | cons line more ih =>
    cases hp : processLine parse line with
    | none =>
      rw [yieldLines_skip parse aborted line more k next hp] at h
      exact ih k h
    | some chunk =>
      cases hab : aborted k with
      | true =>
        rw [yieldLines_leave parse aborted line more k next chunk hp hab] at h
        simp only [stepsAfterCancel, hab, if_true, Option.some.injEq] at h
        exact h.symm
      | false =>
        rw [yieldLines_go_on parse aborted line more k next chunk hp hab] at h
        simp only [stepsAfterCancel, hab, Bool.false_eq_true, if_false] at h
        exact ih (k + 1) h

theorem readLoop_after_cancel {σ α : Type} (decode : σ → List Nat → σ × List Char)
    (parse : List Char → Option α) (aborted : Nat → Bool) (ending : StreamEnding)
    (st : ReaderState σ) (reads : List (List Nat)) (k : Nat) (rest : List (StreamEvent α))
    (h : stepsAfterCancel aborted (readLoop decode parse aborted ending st reads k).trace k
      = some rest) : rest = [] := by
  induction reads generalizing st k rest with
  | nil =>
    rw [readLoop_nil_trace] at h
    simp [stepsAfterCancel] at h
  | cons value more ih =>
    rw [readLoop_cons_trace] at h
    simp only [stepsAfterCancel] at h
    exact yieldLines_after_cancel parse aborted _ k _ (fun k' r hr => ih _ k' r hr) rest h

theorem yieldedChunks_yieldLines {α : Type} (parse : List Char → Option α)
    (lines : List (List Char)) (k : Nat) (next : Nat → StreamRun α) (tail : List α)
    (hnext : ∀ k', yieldedChunks (next k').trace = tail) :
    yieldedChunks (yieldLines parse (fun _ => false) lines k next).trace
      = processLines parse lines ++ tail := by
  induction lines generalizing k with
  | nil => simpa [yieldLines, processLines] using hnext k
  | cons line rest ih =>
    cases hp : processLine parse line with
    | none =>
      rw [yieldLines_skip parse _ line rest k next hp]
      simp only [processLines, List.filterMap_cons, hp]
      exact ih k
    | some chunk =>
      rw [yieldLines_go_on parse _ line rest k next chunk hp rfl]
      simp only [processLines, List.filterMap_cons, hp, yieldedChunks, List.cons_append]
      rw [ih (k + 1)]
      rfl

theorem yieldedChunks_readLoop {σ α : Type} (decode : σ → List Nat → σ × List Char)
    (parse : List Char → Option α) (ending : StreamEnding) (st : ReaderState σ)
    (reads : List (List Nat)) (k : Nat) :
    yieldedChunks (readLoop decode parse (fun _ => false) ending st reads k).trace
      = (runReads decode parse st reads).2 := by
  induction reads generalizing st k with
  | nil =>
    rw [readLoop_nil_trace]
    rfl
  | cons value rest ih =>
    rw [readLoop_cons_trace]
    simp only [yieldedChunks, runReads]
    rw [yieldedChunks_yieldLines parse _ k _ (runReads decode parse
      (readStep decode parse st value).1 rest).2 (fun k' => ih _ k')]
    rfl

theorem yieldedChunks_append_release {α : Type} (t : List (StreamEvent α)) :
    yieldedChunks (t ++ [StreamEvent.releaseLock]) = yieldedChunks t := by
  induction t with
  | nil => rfl
  | cons ev rest ih =>
    cases ev with
    | yielded chunk =>
      show chunk :: yieldedChunks (rest ++ [StreamEvent.releaseLock]) = chunk :: yieldedChunks rest
      rw [ih]
    | getReader => exact ih
    | read => exact ih
    | releaseLock => exact ih

theorem parseStreamRun_chunks {σ α : Type} (decode : σ → List Nat → σ × List Char)
    (parse : List Char → Option α) (ending : StreamEnding) (s0 : σ)
    (reads : List (List Nat)) :
    yieldedChunks (parseStreamRun decode parse (fun _ => false) ending s0 reads).trace
      = parseStreamResponse decode parse s0 reads := by
  show yieldedChunks ((readLoop decode parse (fun _ => false) ending
      { decoder := s0, buffer := [] } reads 0).trace ++ [StreamEvent.releaseLock]) = _
  rw [yieldedChunks_append_release, yieldedChunks_readLoop]
  rfl

theorem exit_paths_reachable :
    (parseStreamRun byteDecode jsonParse (fun _ => false) StreamEnding.done ()
        [bytesOf "data: 1\n"]).exit = StreamExit.completed ∧
    (parseStreamRun byteDecode jsonParse (fun _ => true) StreamEnding.done ()
        [bytesOf "data: 1\n"]).exit = StreamExit.consumerLeft ∧
    (parseStreamRun byteDecode jsonParse (fun _ => false)
        (StreamEnding.rejects { name := "AbortError".toList, status := none, message := [] }) ()
        [bytesOf "data: 1\n"]).exit
      = StreamExit.threw { name := "AbortError".toList, status := none, message := [] } := by
  refine ⟨rfl, rfl, rfl⟩

/-! ## Claims on cancellation and release -/

/-- C19, as stated, fails: `parseStreamResponse` never looks at the signal.  With the
signal fired right after the first chunk was consumed (`aborted k` for every later chunk),
the decoder still performs three more reads, for as long as the stream delivers lines
that yield no chunk. -/
theorem fired_signal_does_not_stop_reads :
    (parseStreamRun byteDecode jsonParse (fun k => decide (1 ≤ k)) StreamEnding.done ()
        [bytesOf "data: 1\n", bytesOf ": keep-alive\n\n", bytesOf "\n"]).trace
      = [StreamEvent.getReader, StreamEvent.read, StreamEvent.yielded (JSON.num ['1']),
          StreamEvent.read, StreamEvent.read, StreamEvent.read, StreamEvent.releaseLock] := by
  rfl

/-- C19, amended: the signal is checked by the consumer loop of `sendMessageStreaming`,
once for each chunk it receives; from the chunk at whose arrival that loop sees the fired
signal, the decoder performs no further read: the only step left is the release of the
reader.  The decoder itself does not check the signal before a read. -/
theorem consumer_cancel_stops_reads {σ α : Type} (decode : σ → List Nat → σ × List Char)
    (parse : List Char → Option α) (aborted : Nat → Bool) (ending : StreamEnding) (s0 : σ)
    (reads : List (List Nat)) (rest : List (StreamEvent α))
    (h : stepsAfterCancel aborted
      (parseStreamRun decode parse aborted ending s0 reads).trace 0 = some rest) :
    rest = [StreamEvent.releaseLock] ∧ ∀ ev ∈ rest, ev.isRead = false := by
  have h' : stepsAfterCancel aborted
      ((readLoop decode parse aborted ending { decoder := s0, buffer := [] } reads 0).trace
        ++ [StreamEvent.releaseLock]) 0 = some rest := h
  rw [stepsAfterCancel_append_release] at h'
  cases hs : stepsAfterCancel aborted
      (readLoop decode parse aborted ending { decoder := s0, buffer := [] } reads 0).trace 0 with
  | none => rw [hs] at h'; simp at h'
  | some r =>
    rw [hs] at h'
    have hr := readLoop_after_cancel decode parse aborted ending _ reads 0 r hs
    subst hr
    simp only [Option.map_some', List.nil_append, Option.some.injEq] at h'
    subst h'
    refine ⟨rfl, ?_⟩
    intro ev hev
    simp only [List.mem_singleton] at hev
    rw [hev]; rfl

theorem consumer_cancel_stops_reads_witness :
    stepsAfterCancel (fun k => decide (1 ≤ k))
        (parseStreamRun byteDecode jsonParse (fun k => decide (1 ≤ k)) StreamEnding.done ()
          [bytesOf "data: 1\ndata: 2\ndata: 3\n", bytesOf "data: 4\n"]).trace 0
      = some [StreamEvent.releaseLock] ∧
    ∀ ev ∈ ([StreamEvent.releaseLock] : List (StreamEvent JSON)), ev.isRead = false :=
  ⟨by rfl,
    (consumer_cancel_stops_reads byteDecode jsonParse (fun k => decide (1 ≤ k))
      StreamEnding.done () [bytesOf "data: 1\ndata: 2\ndata: 3\n", bytesOf "data: 4\n"]
      [StreamEvent.releaseLock] (by rfl)).2⟩

/-- C20: however a started sequence is left (end of stream, the consumer leaving at a
chunk, a read that rejects, such as a cancellation), its steps are `getReader()`, then
steps none of which releases the reader, then `releaseLock()` as the very last step: the
reader is released exactly once, and no read follows the release. -/
theorem reader_released_exactly_once {σ α : Type} (decode : σ → List Nat → σ × List Char)
    (parse : List Char → Option α) (aborted : Nat → Bool) (ending : StreamEnding) (s0 : σ)
    (reads : List (List Nat)) :
    (∃ body, (parseStreamRun decode parse aborted ending s0 reads).trace
        = StreamEvent.getReader :: body ++ [StreamEvent.releaseLock] ∧
      ∀ ev ∈ body, ev.isRelease = false) ∧
    (parseStreamRun decode parse aborted ending s0 reads).trace.countP StreamEvent.isRelease
      = 1 ∧
    (parseStreamRun decode parse aborted ending s0 reads).trace.getLast?
      = some StreamEvent.releaseLock := by
  have hb := readLoop_no_release decode parse aborted ending
    { decoder := s0, buffer := [] } reads 0
  refine ⟨⟨_, rfl, hb⟩, ?_, ?_⟩
  · show (StreamEvent.getReader :: ((readLoop decode parse aborted ending
        { decoder := s0, buffer := [] } reads 0).trace ++ [StreamEvent.releaseLock])).countP
        StreamEvent.isRelease = 1
    rw [List.countP_cons, List.countP_append, countP_release_eq_zero _ hb]
    rfl
  · show (StreamEvent.getReader :: ((readLoop decode parse aborted ending
        { decoder := s0, buffer := [] } reads 0).trace ++ [StreamEvent.releaseLock])).getLast?
        = some StreamEvent.releaseLock
    rw [List.getLast?_cons, List.getLast?_append]
    rfl

theorem objectGet_objectSet (obj : List (List Char × List Char)) (key value k : List Char) :
    objectGet (objectSet obj key value) k
      = if k = key then some value else objectGet obj k := by
  induction obj with
  | nil =>
    by_cases h : k = key
    · simp [objectSet, objectGet, List.lookup, h]
    · have h' : (k == key) = false := by simpa using h
      simp [objectSet, objectGet, List.lookup, h, h']
  | cons kv rest ih =>
    obtain ⟨a, b⟩ := kv
    simp only [objectGet] at ih
    by_cases ha : a = key
    · subst ha
      by_cases hk : k = a
      · subst hk; simp [objectSet, objectGet, List.lookup]
      · have hk' : (k == a) = false := by simpa using hk
        simp [objectSet, objectGet, List.lookup, hk, hk']
    · by_cases hk : k = a
      · subst hk
        simp [objectSet, objectGet, List.lookup, ha]
      · have hk' : (k == a) = false := by simpa using hk
        simp [objectSet, objectGet, List.lookup, ha, hk', ih]

theorem objectGet_objectSpread (target source : List (List Char × List Char))
    (k v : List Char) (ht : objectGet target k = some v)
    (hs : ∀ kv ∈ source, kv.1 = k → kv.2 = v) :
    objectGet (objectSpread target source) k = some v := by
  unfold objectSpread
  induction source generalizing target with
  | nil => exact ht
  | cons kv rest ih =>
    simp only [List.foldl_cons]
    apply ih
    · rw [objectGet_objectSet]
      by_cases h : k = kv.1
      · simp [h, hs kv (List.mem_cons_self _ _) h.symm]
      · simp [h, ht]
    · intro x hx
      exact hs x (List.mem_cons_of_mem _ hx)

theorem objectGet_objectDelete (obj : List (List Char × List Char)) (key k : List Char) :
    objectGet (objectDelete obj key) k = if k = key then none else objectGet obj k := by
  induction obj with
  | nil => simp [objectDelete, objectGet, List.lookup]
  | cons kv rest ih =>
    obtain ⟨a, b⟩ := kv
    simp only [objectGet, objectDelete] at ih
    by_cases ha : a = key
    · subst ha
      have ha' : (a != a) = false := by simp
      by_cases hk : k = a
      · subst hk
        simpa [objectDelete, objectGet, List.filter_cons, ha'] using ih
      · have hk' : (k == a) = false := by simpa using hk
        simpa [objectDelete, objectGet, List.filter_cons, ha', List.lookup, hk, hk'] using ih
    · have ha' : (a != key) = true := by simpa using ha
      by_cases hk : k = a
      · subst hk
        simp [objectDelete, objectGet, List.filter_cons, ha', List.lookup, ha]
      · have hk' : (k == a) = false := by simpa using hk
        simpa [objectDelete, objectGet, List.filter_cons, ha', List.lookup, hk'] using ih

/-- C21: for every behaviour of the request function and every `maxRetries`, the run of
`withRetry` makes at most `maxRetries + 1` calls, its last step is a call, and it ends in
one outcome: a returned response, or a thrown error (the one of that last call). -/
theorem withRetry_bounded_single_outcome (fn : Nat → Outcome) (maxRetries baseDelay : Nat) :
    attempts (withRetry fn maxRetries baseDelay).trace ≤ maxRetries + 1 ∧
    (∃ i, i ≤ maxRetries ∧
      (withRetry fn maxRetries baseDelay).trace.getLast? = some (Event.call i) ∧
      attempts (withRetry fn maxRetries baseDelay).trace = i + 1 ∧
      (withRetry fn maxRetries baseDelay).completion = completionOf (fn i)) ∧
    ((∃ r, (withRetry fn maxRetries baseDelay).completion = Completion.returned r) ∨
      (∃ e, (withRetry fn maxRetries baseDelay).completion = Completion.thrown (some e))) := by
  obtain ⟨i, hi, _, h1, h2, h3, _⟩ := withRetry_completion fn maxRetries baseDelay
  refine ⟨by omega, ⟨i, hi, h2, h3, h1⟩, ?_⟩
  rw [h1]
  cases fn i with
  | resolve r => exact Or.inl ⟨r, rfl⟩
  | reject e => exact Or.inr ⟨e, rfl⟩

/-- C22, as stated, fails: a request issued through `makeRequest` with
`options.headers = \x7b Authorization: 'Bearer other' \x7d` carries that value and not the
configured key. -/
theorem options_headers_override_defaults :
    objectGet (makeRequestHeaders "sk-configured".toList
        (some [("Authorization".toList, "Bearer other".toList)]) false) "Authorization".toList
      = some "Bearer other".toList ∧
    "Bearer other".toList ≠ "Bearer ".toList ++ "sk-configured".toList := by
  decide

/-- C22, amended: for every request issued through `makeRequest` whose `options.headers`
do not redefine a header (a property of `options.headers` with the same name overrides the
default), the headers carry `Authorization: Bearer <configured api key>` and
`User-Agent: ChatGPT-Persian/1.0`; `Content-Type` is `application/json` when the body is
not a `FormData`, and there is no `Content-Type` property when it is, whatever
`options.headers` holds.  The requests of the operations of the client (no
`options.headers`, or only the same `Authorization`) are of this kind. -/
theorem makeRequest_headers (apiKey : List Char)
    (optionsHeaders : Option (List (List Char × List Char))) (bodyIsFormData : Bool) :
    ((∀ kv ∈ optionsHeaders.getD [], kv.1 = "Authorization".toList →
        kv.2 = "Bearer ".toList ++ apiKey) →
      objectGet (makeRequestHeaders apiKey optionsHeaders bodyIsFormData)
        "Authorization".toList = some ("Bearer ".toList ++ apiKey)) ∧
    ((∀ kv ∈ optionsHeaders.getD [], kv.1 = "User-Agent".toList →
        kv.2 = "ChatGPT-Persian/1.0".toList) →
      objectGet (makeRequestHeaders apiKey optionsHeaders bodyIsFormData)
        "User-Agent".toList = some "ChatGPT-Persian/1.0".toList) ∧
    ((∀ kv ∈ optionsHeaders.getD [], kv.1 = "Content-Type".toList →
        kv.2 = "application/json".toList) → bodyIsFormData = false →
      objectGet (makeRequestHeaders apiKey optionsHeaders bodyIsFormData)
        "Content-Type".toList = some "application/json".toList) ∧
    (bodyIsFormData = true →
      objectGet (makeRequestHeaders apiKey optionsHeaders bodyIsFormData)
        "Content-Type".toList = none) := by
  refine ⟨?_, ?_, ?_, ?_⟩
  · intro h
    have hg := objectGet_objectSpread (getHeaders apiKey) (optionsHeaders.getD [])
      "Authorization".toList _ (by rfl) h
    cases bodyIsFormData with
    | false => exact hg
    | true =>
      simp only [makeRequestHeaders, if_true]
      rw [objectGet_objectDelete, if_neg (by decide)]
      exact hg
  · intro h
    have hg := objectGet_objectSpread (getHeaders apiKey) (optionsHeaders.getD [])
      "User-Agent".toList _ (by rfl) h
    cases bodyIsFormData with
    | false => exact hg
    | true =>
      simp only [makeRequestHeaders, if_true]
      rw [objectGet_objectDelete, if_neg (by decide)]
      exact hg
  · intro h hb
    subst hb
    exact objectGet_objectSpread (getHeaders apiKey) (optionsHeaders.getD [])
      "Content-Type".toList _ (by rfl) h
  · intro hb
    subst hb
    simp only [makeRequestHeaders, if_true]
    rw [objectGet_objectDelete, if_pos rfl]

theorem makeRequest_headers_witness :
    objectGet (makeRequestHeaders "sk-configured".toList
        (some [("Authorization".toList, "Bearer sk-configured".toList)]) true)
        "Authorization".toList = some ("Bearer ".toList ++ "sk-configured".toList) ∧
    objectGet (makeRequestHeaders "sk-configured".toList
        (some [("Authorization".toList, "Bearer sk-configured".toList)]) true)
        "Content-Type".toList = none ∧
    objectGet (makeRequestHeaders "sk-configured".toList none false)
        "Content-Type".toList = some "application/json".toList :=
  ⟨(makeRequest_headers "sk-configured".toList
      (some [("Authorization".toList, "Bearer sk-configured".toList)]) true).1 (by decide),
    (makeRequest_headers "sk-configured".toList
      (some [("Authorization".toList, "Bearer sk-configured".toList)]) true).2.2.2 rfl,
    (makeRequest_headers "sk-configured".toList none false).2.2.1 (by decide) rfl⟩

end OpenAIAPI

namespace ChatGPTAdvanced

theorem guarded_step (s : State) (a : Action) (h : Guarded s) : Guarded (step s a) := by
  obtain ⟨h1, h2⟩ := h
  cases a with
  | sendMessage hasInput hasApiKey hasChat stream =>
    simp only [step, sendMessage]
    by_cases hi : hasInput = true
    · by_cases hs : s.isStreaming = true
      · simp only [hi, hs, Bool.not_true, Bool.false_eq_true, if_false, if_true]
        exact ⟨h1, h2⟩
      · have hz : s.activeStreams = 0 := by
          have : ¬ s.activeStreams = 1 := fun e => hs (h2.2 e)
          omega
        cases hasApiKey <;> cases hasChat <;> cases stream <;>
          simp [hi, hs, Guarded, sendMessageStreamingStart, hz]
    · simp only [hi, Bool.not_eq_true] at *
      simp only [Bool.not_false, if_true, hi]
      exact ⟨h1, h2⟩
  | streamExit =>
    simp only [step]
    by_cases hz : s.activeStreams = 0
    · simp only [hz, if_true]; exact ⟨h1, h2⟩
    · simp only [hz, if_false, Guarded, sendMessageStreamingExit]
      constructor
      · omega
      · constructor
        · intro h; exact absurd h (by simp)
        · intro h; omega

theorem guarded_foldl (s : State) (actions : List Action) (h : Guarded s) :
    Guarded (actions.foldl step s) := by
  induction actions generalizing s with
  | nil => exact h
  | cons a rest ih => exact ih _ (guarded_step s a h)

/-- C23: in every state the orchestrator reaches, at most one streaming call is running
and `isStreaming` is true exactly while one is; `sendMessage` invoked while
`isStreaming` is true changes nothing (no call of `createChatCompletionStream`, no
message added); a `sendMessage` that starts a stream sets `isStreaming`, and the exit of
`sendMessageStreaming` clears it. -/
theorem at_most_one_stream (actions : List Action) :
    (run actions).activeStreams ≤ 1 ∧
    ((run actions).isStreaming = true ↔ (run actions).activeStreams = 1) ∧
    (∀ hasInput hasApiKey hasChat stream, (run actions).isStreaming = true →
      sendMessage (run actions) hasInput hasApiKey hasChat stream = run actions) ∧
    (∀ hasInput hasApiKey hasChat stream,
      (sendMessage (run actions) hasInput hasApiKey hasChat stream).streamCalls
          = (run actions).streamCalls + 1 →
      (run actions).isStreaming = false ∧
      (sendMessage (run actions) hasInput hasApiKey hasChat stream).isStreaming = true) ∧
    ((run actions).activeStreams = 1 →
      (step (run actions) Action.streamExit).isStreaming = false ∧
      (step (run actions) Action.streamExit).activeStreams = 0) := by
  have hg : Guarded (run actions) := guarded_foldl initial actions (by simp [Guarded, initial])
  refine ⟨hg.1, hg.2, ?_, ?_, ?_⟩
  · intro hasInput hasApiKey hasChat stream hs
    simp only [sendMessage, hs, if_true]
    cases hasInput <;> simp
  · intro hasInput hasApiKey hasChat stream hc
    cases hs : (run actions).isStreaming with
    | true =>
      simp only [sendMessage, hs, if_true] at hc
      cases hasInput <;> simp at hc
    | false =>
      refine ⟨rfl, ?_⟩
      simp only [sendMessage, hs] at hc ⊢
      cases hasInput <;> cases hasApiKey <;> cases hasChat <;> cases stream <;>
        simp [sendMessageStreamingStart] at hc ⊢
  · intro h1
    simp [step, h1, sendMessageStreamingExit]

theorem at_most_one_stream_witness :
    run [Action.sendMessage true true true true, Action.sendMessage true true true true]
      = { isStreaming := true, activeStreams := 1, streamCalls := 1, messages := 2 } ∧
    (run [Action.sendMessage true true true true, Action.sendMessage true true true true,
        Action.streamExit]).isStreaming = false ∧
    sendMessage (run [Action.sendMessage true true true true]) true true true true
      = run [Action.sendMessage true true true true] :=
  ⟨by decide, by decide,
    (at_most_one_stream [Action.sendMessage true true true true]).2.2.1 true true true true
      (by decide)⟩

end ChatGPTAdvanced

namespace Utils

theorem trimUnits_length_le (s : List Nat) : (trimUnits s).length ≤ s.length := by
  unfold trimUnits
  rw [List.length_reverse]
  have h1 := (List.dropWhile_sublist isWhiteSpaceUnit
    (l := (s.dropWhile isWhiteSpaceUnit).reverse)).length_le
  have h2 := (List.dropWhile_sublist isWhiteSpaceUnit (l := s)).length_le
  rw [List.length_reverse] at h1
  omega

theorem chunkLoop_stop {α : Type} (array : List α) (size fuel i : Nat)
    (hi : ¬ i < array.length) : chunkLoop array size (fuel + 1) i = some [] := by
  simp [chunkLoop, hi]

theorem chunkLoop_go {α : Type} (array : List α) (size fuel i : Nat)
    (hi : i < array.length) :
    chunkLoop array size (fuel + 1) i
      = (chunkLoop array size fuel (i + size)).map fun chunks =>
          ((array.drop i).take size) :: chunks := by
  simp [chunkLoop, hi]

theorem chunkLoop_spec {α : Type} (array : List α) (size : Nat) (hsize : 1 ≤ size)
    (fuel i : Nat) (hfuel : array.length ≤ fuel + i) :
    ∃ chunks, chunkLoop array size (fuel + 1) i = some chunks ∧
      chunks.flatten = array.drop i ∧
      (∀ c ∈ chunks, 1 ≤ c.length ∧ c.length ≤ size) ∧
      (∀ c ∈ chunks.dropLast, c.length = size) ∧
      (chunks ≠ [] → i < array.length) := by
  induction fuel generalizing i with
  | zero =>
    refine ⟨[], chunkLoop_stop array size 0 i (by omega), ?_, ?_, ?_, ?_⟩
    · rw [List.drop_eq_nil_of_le (by omega)]; rfl
    · simp
    · simp
    · simp
  | succ fuel ih =>
    by_cases hi : i < array.length
    · obtain ⟨cs, h1, h2, h3, h4, h5⟩ := ih (i + size) (by omega)
      refine ⟨((array.drop i).take size) :: cs, ?_, ?_, ?_, ?_, fun _ => hi⟩
      · rw [chunkLoop_go array size (fuel + 1) i hi, h1]; rfl
      · rw [List.flatten_cons, h2, ← List.drop_drop, List.take_append_drop]
      · intro c hc
        rcases List.mem_cons.1 hc with rfl | hc
        · simp only [List.length_take, List.length_drop]
          omega
        · exact h3 c hc
      · intro c hc
        cases cs with
        | nil => simp at hc
        | cons x xs =>
          rw [List.dropLast_cons₂] at hc
          rcases List.mem_cons.1 hc with rfl | hc
          · have := h5 (by simp)
            simp only [List.length_take, List.length_drop]
            omega
          · exact h4 c hc
    · refine ⟨[], chunkLoop_stop array size (fuel + 1) i hi, ?_, ?_, ?_, ?_⟩
      · rw [List.drop_eq_nil_of_le (by omega)]; rfl
      · simp
      · simp
      · simp

theorem retryLoop_success {α ε : Type} (fn : Nat → Except ε α)
    (retries delay backoff maxDelay : Nat) (n i fuel : Nat) (value : α)
    (hfuel : n < fuel) (hle : i + n ≤ retries)
    (hfail : ∀ j, i ≤ j → j < i + n → ∃ e, fn j = Except.error e)
    (hok : fn (i + n) = Except.ok value) :
    retryLoop fn retries backoff maxDelay fuel i (delay * backoff ^ i)
      = (RetryEnd.returned value,
          backoffSteps delay backoff maxDelay i n ++ [RetryStep.call (i + n)]) := by
  induction n generalizing i fuel with
  | zero =>
    obtain ⟨f, rfl⟩ : ∃ f, fuel = f + 1 := ⟨fuel - 1, by omega⟩
    have hi : i ≤ retries := by omega
    simp only [Nat.add_zero] at hok
    simp [retryLoop, hi, hok, backoffSteps]
  | succ n ih =>
    obtain ⟨f, rfl⟩ : ∃ f, fuel = f + 1 := ⟨fuel - 1, by omega⟩
    have hi : i ≤ retries := by omega
    have hne : i ≠ retries := by omega
    obtain ⟨e, he⟩ := hfail i (Nat.le_refl i) (by omega)
    have hrec := ih (i + 1) f (by omega) (by omega)
      (fun j h1 h2 => hfail j (by omega) (by omega))
      (by rw [show i + 1 + n = i + (n + 1) by omega]; exact hok)
    have hpow : delay * backoff ^ i * backoff = delay * backoff ^ (i + 1) := by
      rw [Nat.pow_succ, Nat.mul_assoc]
    simp only [retryLoop, hi, he, hne, if_true, if_false, hpow, hrec, backoffSteps,
      List.cons_append]
    rw [show i + 1 + n = i + (n + 1) by omega]

theorem retryLoop_failure {α ε : Type} (fn : Nat → Except ε α)
    (retries delay backoff maxDelay : Nat) (n i fuel : Nat) (error : ε)
    (hfuel : n < fuel) (hle : i + n = retries)
    (hfail : ∀ j, i ≤ j → j < i + n → ∃ e, fn j = Except.error e)
    (hlast : fn retries = Except.error error) :
    retryLoop fn retries backoff maxDelay fuel i (delay * backoff ^ i)
      = (RetryEnd.thrown error,
          backoffSteps delay backoff maxDelay i n ++ [RetryStep.call retries]) := by
  induction n generalizing i fuel with
  | zero =>
    obtain ⟨f, rfl⟩ : ∃ f, fuel = f + 1 := ⟨fuel - 1, by omega⟩
    have hi : i = retries := by omega
    subst hi
    simp [retryLoop, hlast, backoffSteps]
  | succ n ih =>
    obtain ⟨f, rfl⟩ : ∃ f, fuel = f + 1 := ⟨fuel - 1, by omega⟩
    have hi : i ≤ retries := by omega
    have hne : i ≠ retries := by omega
    obtain ⟨e, he⟩ := hfail i (Nat.le_refl i) (by omega)
    have hrec := ih (i + 1) f (by omega) (by omega)
      (fun j h1 h2 => hfail j (by omega) (by omega))
    have hpow : delay * backoff ^ i * backoff = delay * backoff ^ (i + 1) := by
      rw [Nat.pow_succ, Nat.mul_assoc]
    simp only [retryLoop, hi, he, hne, if_true, if_false, hpow, hrec, backoffSteps,
      List.cons_append]

theorem retryLoop_bounds {α ε : Type} (fn : Nat → Except ε α)
    (retries backoff maxDelay : Nat) (fuel i currentDelay : Nat) :
    calls (retryLoop fn retries backoff maxDelay fuel i currentDelay).2 ≤ fuel ∧
      ∀ ms, RetryStep.sleep ms ∈ (retryLoop fn retries backoff maxDelay fuel i currentDelay).2 →
        ms ≤ maxDelay := by
  induction fuel generalizing i currentDelay with
  | zero => simp [retryLoop, calls]
  | succ fuel ih =>
    simp only [retryLoop]
    by_cases hi : i ≤ retries
    · simp only [hi, if_true]
      cases fn i with
      | ok value => simp [calls]
      | error e =>
        by_cases he : i = retries
        · simp [he, calls]
        · simp only [he, if_false]
          obtain ⟨h1, h2⟩ := ih (i + 1) (currentDelay * backoff)
          constructor
          · simp only [calls, List.countP_cons] at h1 ⊢
            simp
            exact h1
          · intro ms hms
            simp only [List.mem_cons, RetryStep.sleep.injEq, reduceCtorEq, false_or] at hms
            rcases hms with rfl | hms
            · exact Nat.min_le_right _ _
            · exact h2 ms hms
    · simp [hi, calls]

/-! ## Claims on `truncateText`, `chunk` and `retry` -/

/-- C24, evaluated on the code: `truncateText('hello', 2)` with the default suffix `...`
returns `...`, of length 3, longer than `maxLength = 2`.  What holds for every input: a
text no longer than `maxLength` is returned unchanged, any other result ends with the
suffix, and the result is no longer than `maxLength` when the suffix is not. -/
theorem truncateText_exceeds_maxLength :
    truncateText (units "hello") 2 (units "...") = units "..." ∧
    (truncateText (units "hello") 2 (units "...")).length = 3 ∧
    (∀ text maxLength suffix, text.length ≤ maxLength →
      truncateText text maxLength suffix = text) ∧
    (∀ text maxLength suffix, maxLength < text.length →
      ∃ front, truncateText text maxLength suffix = front ++ suffix) ∧
    (∀ text maxLength suffix, suffix.length ≤ maxLength →
      (truncateText text maxLength suffix).length ≤ maxLength) := by
  refine ⟨by decide, by decide, ?_, ?_, ?_⟩
  · intro text maxLength suffix h
    simp [truncateText, h]
  · intro text maxLength suffix h
    refine ⟨trimUnits (text.take (maxLength - suffix.length)), ?_⟩
    simp only [truncateText, Nat.not_le.2 h, if_false]
  · intro text maxLength suffix h
    by_cases ht : text.length ≤ maxLength
    · simp [truncateText, ht]
    · simp only [truncateText, ht, if_false, List.length_append]
      have h1 := trimUnits_length_le (text.take (maxLength - suffix.length))
      have h2 : (text.take (maxLength - suffix.length)).length ≤ maxLength - suffix.length :=
        List.length_take_le _ _
      omega

/-- C25: for every array and every `size >= 1`, `chunk` terminates and returns sub-arrays
whose concatenation in order is the input; each has between 1 and `size` elements, each
but the last exactly `size`; the empty array gives no chunk. -/
theorem chunk_spec {α : Type} (array : List α) (size : Nat) (hsize : 1 ≤ size) :
    ∃ chunks, chunk array size = some chunks ∧
      chunks.flatten = array ∧
      (∀ c ∈ chunks, 1 ≤ c.length ∧ c.length ≤ size) ∧
      (∀ c ∈ chunks.dropLast, c.length = size) ∧
      (array = [] → chunks = []) := by
  obtain ⟨cs, h1, h2, h3, h4, h5⟩ := chunkLoop_spec array size hsize array.length 0
    (Nat.le_refl _)
  refine ⟨cs, h1, by simpa using h2, h3, h4, ?_⟩
  intro ha
  by_contra hne
  have := h5 hne
  rw [ha] at this
  simp at this

theorem chunk_spec_witness :
    ∃ chunks, chunk [1, 2, 3, 4, 5] 2 = some chunks ∧
      chunks.flatten = [1, 2, 3, 4, 5] ∧
      (∀ c ∈ chunks, 1 ≤ c.length ∧ c.length ≤ 2) ∧
      (∀ c ∈ chunks.dropLast, c.length = 2) ∧
      (([1, 2, 3, 4, 5] : List Nat) = [] → chunks = []) :=
  chunk_spec [1, 2, 3, 4, 5] 2 (by decide)

/-- C26: `retry` calls `fn` at most `retries + 1` times and no wait exceeds `maxDelay`;
when call `k` is the first to succeed its result is returned after the calls `0..k`, with
the wait `min(delay × backoff^i, maxDelay)` after each failed call `i` and nothing after
call `k`; when all `retries + 1` calls fail the error of the last call is thrown, with no
wait after that call. -/
theorem retry_backoff {α ε : Type} (fn : Nat → Except ε α)
    (retries delay backoff maxDelay : Nat) :
    calls (retry fn retries delay backoff maxDelay).2 ≤ retries + 1 ∧
    (∀ ms, RetryStep.sleep ms ∈ (retry fn retries delay backoff maxDelay).2 →
      ms ≤ maxDelay) ∧
    (∀ k value, k ≤ retries → (∀ j, j < k → ∃ e, fn j = Except.error e) →
      fn k = Except.ok value →
      retry fn retries delay backoff maxDelay
        = (RetryEnd.returned value,
            backoffSteps delay backoff maxDelay 0 k ++ [RetryStep.call k])) ∧
    (∀ error, (∀ j, j < retries → ∃ e, fn j = Except.error e) →
      fn retries = Except.error error →
      retry fn retries delay backoff maxDelay
        = (RetryEnd.thrown error,
            backoffSteps delay backoff maxDelay 0 retries ++ [RetryStep.call retries])) := by
  have hb := retryLoop_bounds fn retries backoff maxDelay (retries + 1) 0 delay
  refine ⟨hb.1, hb.2, ?_, ?_⟩
  · intro k value hk hfail hok
    have h := retryLoop_success fn retries delay backoff maxDelay k 0 (retries + 1) value
      (by omega) (by omega) (fun j _ hj => hfail j (by omega)) (by simpa using hok)
    simpa [retry] using h
  · intro error hfail hlast
    have h := retryLoop_failure fn retries delay backoff maxDelay retries 0 (retries + 1)
      error (by omega) (by omega) (fun j _ hj => hfail j (by omega)) hlast
    simpa [retry] using h

theorem retry_backoff_witness :
    retry (fun k => if k < 2 then (Except.error k : Except Nat Nat) else Except.ok 7)
        3 1000 2 1500
      = (RetryEnd.returned 7,
          backoffSteps 1000 2 1500 0 2 ++ [RetryStep.call 2]) ∧
    backoffSteps 1000 2 1500 0 2 ++ [RetryStep.call 2]
      = [RetryStep.call 0, RetryStep.sleep 1000, RetryStep.call 1, RetryStep.sleep 1500,
          RetryStep.call 2] :=
  ⟨(retry_backoff (fun k => if k < 2 then (Except.error k : Except Nat Nat) else Except.ok 7)
      3 1000 2 1500).2.2.1 2 7 (by decide)
      (fun j hj => ⟨j, by simp [hj]⟩) (by rfl),
    by decide⟩

/-! ## Lemmas on `shuffle`, the replacements and `lastIndexOf` -/

theorem count_swap (p q : Bool) (n : Nat) (h : p = true → 0 < n) :
    n - (if p = true then 1 else 0) + (if q = true then 1 else 0)
        - (if q = true then 1 else 0) + (if p = true then 1 else 0) = n := by
  cases p <;> cases q <;> simp at h ⊢ <;> omega

theorem swapAt_perm {α : Type} (l : List α) (i j : Nat) : (swapAt l i j).Perm l := by
  classical
  unfold swapAt
  cases hi : l.get? i with
  | none => exact List.Perm.refl _
  | some a =>
    cases hj : l.get? j with
    | none => exact List.Perm.refl _
    | some b =>
      obtain ⟨hil, hia⟩ := List.get?_eq_some.1 hi
      obtain ⟨hjl, hjb⟩ := List.get?_eq_some.1 hj
      simp only [List.get_eq_getElem] at hia hjb
      show ((l.set i b).set j a).Perm l
      rw [List.perm_iff_count]
      intro x
      have hjl' : j < (l.set i b).length := by simpa using hjl
      rw [List.count_set a x (l.set i b) j hjl', List.count_set b x l i hil]
      have hget : (l.set i b)[j] = b := by
        rw [List.getElem_set]
        split
        · rfl
        · exact hjb
      rw [hget, hia]
      have hpos : (a == x) = true → 0 < l.count x := by
        intro h
        have hax : a = x := by simpa using h
        rw [← hax, ← hia]
        exact List.count_pos_iff.2 (List.getElem_mem hil)
      exact count_swap (a == x) (b == x) (l.count x) hpos

theorem shuffleLoop_perm {α : Type} (draw : (i : Nat) → Fin (i + 1)) (i : Nat)
    (result : List α) : (shuffleLoop draw i result).Perm result := by
  induction i generalizing result with
  | zero => exact List.Perm.refl _
  | succ i ih => exact (ih _).trans (swapAt_perm result _ _)

theorem mem_replaceFrom (pat rep : List Char) (k : Nat) (s : List Char) (x : Char)
    (h : x ∈ replaceFrom pat rep k s) : x ∈ s ∨ x ∈ rep := by
  induction s generalizing k with
  | nil => simp [replaceFrom] at h
  | cons c cs ih =>
    cases k with
    | succ k =>
      simp only [replaceFrom] at h
      rcases ih k h with h | h
      · exact Or.inl (List.mem_cons_of_mem _ h)
      · exact Or.inr h
    | zero =>
      simp only [replaceFrom] at h
      split at h
      · rcases List.mem_append.1 h with h | h
        · exact Or.inr h
        · rcases ih _ h with h | h
          · exact Or.inl (List.mem_cons_of_mem _ h)
          · exact Or.inr h
      · rcases List.mem_cons.1 h with h | h
        · exact Or.inl (by simp [h])
        · rcases ih _ h with h | h
          · exact Or.inl (List.mem_cons_of_mem _ h)
          · exact Or.inr h

theorem not_mem_replace_char (c : Char) (rep s : List Char) (hrep : c ∉ rep) :
    c ∉ replaceFrom [c] rep 0 s := by
  induction s with
  | nil => simp [replaceFrom]
  | cons x xs ih =>
    simp only [replaceFrom]
    by_cases hx : c = x
    · subst hx
      simp only [List.isPrefixOf, beq_self_eq_true, Bool.and_self, if_true,
        List.length_singleton, Nat.sub_self, List.mem_append, not_or]
      exact ⟨hrep, ih⟩
    · have hb : (c == x) = false := by simpa using hx
      simp only [List.isPrefixOf, hb, Bool.false_and, Bool.false_eq_true, if_false,
        List.mem_cons, not_or]
      exact ⟨hx, ih⟩

theorem lastIndexOfFrom_absent (c : Char) (s : List Char) (i : Nat) (found : Int)
    (h : c ∉ s) : lastIndexOfFrom c s i found = found := by
  induction s generalizing i found with
  | nil => rfl
  | cons x xs ih =>
    have hx : x ≠ c := fun e => h (by simp [e])
    have hxs : c ∉ xs := fun e => h (List.mem_cons_of_mem _ e)
    simp [lastIndexOfFrom, hx, ih _ _ hxs]

theorem lastIndexOfFrom_last (c : Char) (pre post : List Char) (i : Nat) (found : Int)
    (h : c ∉ post) :
    lastIndexOfFrom c (pre ++ c :: post) i found = ((i + pre.length : Nat) : Int) := by
  induction pre generalizing i found with
  | nil => simp [lastIndexOfFrom, lastIndexOfFrom_absent c post _ _ h]
  | cons x xs ih =>
    show lastIndexOfFrom c (xs ++ c :: post) (i + 1) (if x = c then (i : Int) else found)
      = ((i + (xs.length + 1) : Nat) : Int)
    rw [ih]
    congr 1
    omega

theorem exists_last (c : Char) (s : List Char) (h : c ∈ s) :
    ∃ pre post, s = pre ++ c :: post ∧ c ∉ post := by
  induction s with
  | nil => simp at h
  | cons x xs ih =>
    by_cases hxs : c ∈ xs
    · obtain ⟨pre, post, e, hp⟩ := ih hxs
      exact ⟨x :: pre, post, by simp [e], hp⟩
    · rcases List.mem_cons.1 h with e | e
      · exact ⟨[], xs, by simp [e], hxs⟩
      · exact absurd e hxs

/-! ## Claims on `gregorianToPersian`, `shuffle`, the escapes and `getFileExtension` -/

/-- C27, evaluated on the code: `gregorianToPersian(2024, 3, 20)` throws a
`ReferenceError` for `days` and returns no date, as does every call when the script's
globals are as the repository leaves them; and whatever the globals are, the outcome does
not depend on the date passed in. -/
theorem gregorianToPersian_throws :
    gregorianToPersian noGlobals 2024 3 20 = Except.error (JsThrow.referenceError "days") ∧
    (∀ gYear gMonth gDay, gregorianToPersian noGlobals gYear gMonth gDay
      = Except.error (JsThrow.referenceError "days")) ∧
    (∀ globals gYear gMonth gDay gYear' gMonth' gDay',
      gregorianToPersian globals gYear gMonth gDay
        = gregorianToPersian globals gYear' gMonth' gDay') := by
  refine ⟨rfl, fun _ _ _ => rfl, fun _ _ _ _ _ _ _ => rfl⟩

/-- C28: for every array and every outcome of the random draws, the array `shuffle`
returns is a permutation of the input, of the same length, and the input array is left
as it was. -/
theorem shuffle_is_permutation {α : Type} (draw : (i : Nat) → Fin (i + 1))
    (array : List α) :
    (shuffle draw array).result.Perm array ∧
    (shuffle draw array).result.length = array.length ∧
    (shuffle draw array).array = array := by
  have h := shuffleLoop_perm draw (array.length - 1) array
  exact ⟨h, h.length_eq, rfl⟩

/-- C29, evaluated on the code: `unescapeHtml(escapeHtml('&lt;'))` is `<`, not `&lt;`:
`unescapeHtml` replaces `&amp;` first and then reads the `&lt;` this produces as an
entity.  The other half holds for every string: `escapeHtml(s)` contains none of the
characters `<`, `>`, the double and the single quote. -/
theorem unescapeHtml_not_inverse :
    escapeHtml "&lt;".toList = "&amp;lt;".toList ∧
    unescapeHtml (escapeHtml "&lt;".toList) = "<".toList ∧
    unescapeHtml (escapeHtml "&lt;".toList) ≠ "&lt;".toList ∧
    (∀ s, '<' ∉ escapeHtml s ∧ '>' ∉ escapeHtml s ∧ '"' ∉ escapeHtml s ∧
      Char.ofNat 39 ∉ escapeHtml s) := by
  refine ⟨by decide, by decide, by decide, ?_⟩
  intro s
  have none_of : ∀ (c : Char) (pat rep : String) (t : List Char),
      c ∉ t → c ∉ rep.toList → c ∉ replaceAll pat rep t := by
    intro c pat rep t ht hr hm
    rcases mem_replaceFrom _ _ _ _ _ hm with h | h
    · exact ht h
    · exact hr h
  refine ⟨?_, ?_, ?_, ?_⟩
  · apply none_of _ _ _ _ _ (by decide)
    apply none_of _ _ _ _ _ (by decide)
    apply none_of _ _ _ _ _ (by decide)
    exact not_mem_replace_char '<' _ _ (by decide)
  · apply none_of _ _ _ _ _ (by decide)
    apply none_of _ _ _ _ _ (by decide)
    exact not_mem_replace_char '>' _ _ (by decide)
  · apply none_of _ _ _ _ _ (by decide)
    exact not_mem_replace_char '"' _ _ (by decide)
  · exact not_mem_replace_char (Char.ofNat 39) _ _ (by decide)

/-- C30: for every filename shorter than `2^32` (as every JavaScript string is),
`getFileExtension` returns the text after the last `.` when that `.` is at an index of at
least 1, and the empty string when the filename has no `.` or when its only `.` is its
first character; the result never contains a `.`. -/
theorem getFileExtension_spec (filename : List Char) (hlen : filename.length < 2 ^ 32) :
    (∀ pre post, filename = pre ++ '.' :: post → '.' ∉ post → pre ≠ [] →
      getFileExtension filename = post) ∧
    ('.' ∉ filename → getFileExtension filename = []) ∧
    (∀ post, filename = '.' :: post → '.' ∉ post → getFileExtension filename = []) ∧
    '.' ∉ getFileExtension filename := by
  have hlast : ∀ pre post, filename = pre ++ '.' :: post → '.' ∉ post →
      getFileExtension filename = if pre = [] then [] else post := by
    intro pre post hf hp
    have hidx : lastIndexOf '.' filename = (pre.length : Int) := by
      rw [hf, lastIndexOf, lastIndexOfFrom_last '.' pre post 0 (-1) hp]
      simp
    have hl : pre.length + 1 + post.length < 2 ^ 32 := by
      rw [hf] at hlen
      simp only [List.length_append, List.length_cons] at hlen
      omega
    unfold getFileExtension
    rw [hidx]
    by_cases hpre : pre = []
    · subst hpre
      simp only [List.length_nil, if_true]
      apply List.drop_eq_nil_of_le
      rw [hf]
      simp only [List.nil_append, List.length_cons]
      have : (((0 : Nat) : Int) - 1) % 2 ^ 32 = 2 ^ 32 - 1 := by decide
      rw [this]
      omega
    · simp only [hpre, if_false]
      have hpos : 0 < pre.length := List.length_pos.2 hpre
      have hmod : ((pre.length : Int) - 1) % 2 ^ 32 = ((pre.length - 1 : Nat) : Int) := by
        rw [Int.emod_eq_of_lt (by omega) (by omega)]
        omega
      rw [hmod, Int.toNat_ofNat, hf]
      have : pre.length - 1 + 2 = pre.length + 1 := by omega
      rw [this, List.drop_append_eq_append_drop]
      simp
  have habsent : '.' ∉ filename → getFileExtension filename = [] := by
    intro h
    unfold getFileExtension
    rw [lastIndexOf, lastIndexOfFrom_absent '.' filename 0 (-1) h]
    apply List.drop_eq_nil_of_le
    have : ((-1 : Int) - 1) % 2 ^ 32 = 2 ^ 32 - 2 := by decide
    rw [this]
    omega
  refine ⟨?_, habsent, ?_, ?_⟩
  · intro pre post hf hp hpre
    rw [hlast pre post hf hp, if_neg hpre]
  · intro post hf hp
    rw [hlast [] post (by simpa using hf) hp, if_pos rfl]
  · by_cases hdot : '.' ∈ filename
    · obtain ⟨pre, post, hf, hp⟩ := exists_last '.' filename hdot
      rw [hlast pre post hf hp]
      split
      · simp
      · exact hp
    · rw [habsent hdot]
      simp

theorem getFileExtension_spec_witness :
    getFileExtension "a.tar.gz".toList = "gz".toList ∧
    getFileExtension "README".toList = [] ∧
    getFileExtension ".bashrc".toList = [] ∧
    '.' ∉ getFileExtension "a.tar.gz".toList :=
  ⟨(getFileExtension_spec "a.tar.gz".toList (by decide)).1 "a.tar".toList "gz".toList
      (by decide) (by decide) (by decide),
    (getFileExtension_spec "README".toList (by decide)).2.1 (by decide),
    (getFileExtension_spec ".bashrc".toList (by decide)).2.2.1 "bashrc".toList
      (by decide) (by decide),
    (getFileExtension_spec "a.tar.gz".toList (by decide)).2.2.2⟩

end Utils
